import Mathlib

/-!
# kinesis-tail: a shallow embedding of `main.go`

The program tails an AWS Kinesis stream: it lists the shards of a stream, asks the
service for a shard iterator per shard, starts one goroutine per shard that polls
`GetRecords` forever, and prints every record payload it receives on a channel.

The embedding has two layers.

* Sequential layer: each Go function (`fail`, `getKinesisClient`, `getIterator`,
  `fetchRecords`, the blocks of `main`, the goroutine body) is a Lean function that
  passes the observable process state (`Proc`) explicitly.  The AWS service, the
  session constructor and `time.Parse` are outside the repository; their answers are
  inputs (`Env`, and a per-poller script of `GetRecords` results).
* Concurrent layer: a scheduler-driven step function (`step`) that interleaves the
  main goroutine and the pollers over the `records` channel, built from the same
  sequential pieces.

Command-line parsing (`flag.Parse`) is taken as done: the embedding starts from the
parsed flag values.  Durations of `time.Sleep` are not modelled.
-/

namespace KinesisTail

/-! ## Data -/

/-- A byte. -/
abbrev Byte := Fin 256

/-- A Go `string` (and a Go `[]byte`): a sequence of bytes, not necessarily UTF-8. -/
abbrev GoString := List Byte

/-- A Go string literal whose characters are ASCII. -/
def lit (s : String) : GoString := s.toList.map (fun c => Fin.ofNat c.toNat)

/-- The newline byte that `fmt.Println` and `fmt.Fprintln` append. -/
def newline : Byte := 10

/-- A Go `error`; `msg` is what `err.Error()` returns, which is also what the verbs
`%s` and `%v` print for it. -/
structure GoError where
  msg : GoString
deriving DecidableEq, Repr

/-- A `time.Time`, as an offset in nanoseconds from the zero instant `time.Time{}`. -/
structure Time where
  nsec : Int
deriving DecidableEq, Repr

/-- The zero value of `time.Time` (what `var start time.Time` holds). -/
def Time.zero : Time := ⟨0⟩

/-- The command-line flags of lines 14-20, after `flag.Parse()`. -/
structure Flags where
  stream : GoString
  region : GoString
  iteratorType : GoString
  interval : Nat
  startTime : GoString
deriving DecidableEq, Repr

/-- The default values of the flags.  The default of `-iterator-type` is `LATEST`; its
usage text on the same line names `TRIM_HORIZON` as the default, which the value does
not follow. -/
def Flags.default : Flags :=
  { stream := lit "your-stream", region := lit "ap-northeast-1", iteratorType := lit "LATEST",
    interval := 3000000000, startTime := [] }

/-- A `kinesis.Shard`; only the field the program reads. -/
structure Shard where
  ShardId : GoString
deriving DecidableEq, Repr

/-- A `kinesis.GetShardIteratorInput` as `getIterator` fills it in: all four fields
are set (the pointers are non-nil), `Timestamp` points at `start`. -/
structure GetShardIteratorInput where
  ShardId : GoString
  ShardIteratorType : GoString
  StreamName : GoString
  Timestamp : Time
deriving DecidableEq, Repr

/-- A `kinesis.GetShardIteratorOutput`; `ShardIterator` is a `*string`. -/
structure GetShardIteratorOutput where
  ShardIterator : Option GoString
deriving DecidableEq, Repr

/-- A `kinesis.Record`; only the field the program reads. -/
structure Record where
  Data : List Byte
deriving DecidableEq, Repr

/-- A `kinesis.GetRecordsOutput`; `NextShardIterator` is a `*string`. -/
structure GetRecordsOutput where
  Records : List Record
  NextShardIterator : Option GoString
deriving DecidableEq, Repr

/-- A `kinesis.GetRecordsInput`. -/
structure GetRecordsInput where
  ShardIterator : Option GoString
deriving DecidableEq, Repr

deriving instance DecidableEq for Except

/-- What one `GetRecords` call returns: `(records, err)`. -/
abbrev FetchResult := Except GoError GetRecordsOutput

/-- A service operation invoked by the program, with its request. -/
inductive Call where
  | describeStream (StreamName : GoString)
  | getShardIterator (input : GetShardIteratorInput)
  | getRecords (input : GetRecordsInput)
deriving DecidableEq, Repr

/-- A goroutine started by the `go` statement of line 52: the shard it is given as
argument and the variable `iterator` its closure captures. -/
structure Started where
  shard : Shard
  iterator : GetShardIteratorOutput
deriving DecidableEq, Repr

/-- The observable state of the process. -/
structure Proc where
  /-- bytes written to standard output -/
  stdout : GoString := []
  /-- bytes written to standard error -/
  stderr : GoString := []
  /-- service operations called so far, oldest first (a call is entered when it
  returns) -/
  calls : List Call := []
  /-- goroutines started so far, oldest first -/
  started : List Started := []
  /-- payloads whose send on `records` has completed, oldest first -/
  sink : List GoString := []
  /-- the status passed to `os.Exit`, once it has been called -/
  exit : Option Nat := none
deriving DecidableEq, Repr

/-- The answers of everything outside the repository that `main` consults. -/
structure Env where
  /-- result of `session.NewSession` -/
  newSession : Except GoError Unit
  /-- `time.Parse(time.RFC3339, ·)` -/
  parseRFC3339 : GoString → Except GoError Time
  /-- result of `DescribeStream` for a stream name: the shard list, or an error -/
  describeStream : GoString → Except GoError (List Shard)
  /-- result of the `n`-th `GetShardIterator` call (counting from 0) for a request -/
  getShardIterator : Nat → GetShardIteratorInput → Except GoError GetShardIteratorOutput
  /-- the results of the successive `GetRecords` calls of the `n`-th goroutine; when
  the list is used up the next call has not returned yet -/
  getRecords : Nat → List FetchResult

/-! ## Sequential layer -/

/-- Conversion `string(r.Data)`: the bytes are kept as they are. -/
def string (b : List Byte) : GoString := b

/-- Function `fmt.Fprintln(os.Stderr, msg)`. -/
def Fprintln_stderr (msg : GoString) (p : Proc) : Proc :=
  { p with stderr := p.stderr ++ msg ++ [newline] }

/-- Function `fmt.Println(record)` for one string operand. -/
def Println (record : GoString) (p : Proc) : Proc :=
  { p with stdout := p.stdout ++ record ++ [newline] }

/-- Function `os.Exit(code)`. -/
def os_Exit (code : Nat) (p : Proc) : Proc :=
  { p with exit := some code }

/-- Lines 87-90: `fail` prints the message and a newline on standard error and exits
with status 1. -/
def fail (msg : GoString) (p : Proc) : Proc :=
  os_Exit 1 (Fprintln_stderr msg p)

/-- Lines 93-105: `fetchRecords`.  `resp` is what `k.GetRecords` returns for this call;
the call is logged, and on success every payload is sent on `out` in the order of
`records.Records` before `records.NextShardIterator` is returned. -/
def fetchRecords (resp : FetchResult) (shardIterator : Option GoString) (p : Proc) :
    Except GoError (Option GoString) × Proc :=
  let p := { p with calls := p.calls ++ [Call.getRecords { ShardIterator := shardIterator }] }
  match resp with
  | .error err => (.error err, p)
  | .ok records =>
    (.ok records.NextShardIterator,
      records.Records.foldl (fun q r => { q with sink := q.sink ++ [string r.Data] }) p)

/-- The message of line 57. -/
def fetchFailMsg (s : Shard) (err : GoError) : GoString :=
  lit "Failed reading from shard " ++ s.ShardId ++ lit ": " ++ err.msg ++ [newline]

/-- Lines 54-60: the loop of one shard's goroutine, run against the results `script`
that the service returns to its successive `GetRecords` calls.  Every send on the
channel is taken to complete.  The loop ends only through `fail`; when the script is
used up the goroutine is waiting for the service. -/
def pollLoop (s : Shard) : Option GoString → List FetchResult → Proc → Proc
  | _, [], p => p
  | iter, resp :: script, p =>
    match fetchRecords resp iter p with
    | (.error err, p1) => fail (fetchFailMsg s err) p1
    | (.ok next, p1) => pollLoop s next script p1

/-- Lines 52-61: the goroutine of one shard: `iter := iterator.ShardIterator`, then
the loop. -/
def goroutine (g : Started) (script : List FetchResult) (p : Proc) : Proc :=
  let iter := g.iterator.ShardIterator
  pollLoop g.shard iter script p

/-- The message of line 81. -/
def sessionFailMsg (err : GoError) : GoString :=
  lit "Could not create AWS session: " ++ err.msg

/-- Lines 78-85: `getKinesisClient`.  `Except.error` carries the state of the process
after `os.Exit`; `Except.ok` carries the state with which execution goes on. -/
def getKinesisClient (env : Env) (p : Proc) : Except Proc Proc :=
  match env.newSession with
  | .error err => .error (fail (sessionFailMsg err) p)
  | .ok _ => .ok p

/-- The message of line 31. -/
def parseFailMsg (err : GoError) : GoString :=
  lit "parse time failed. -start-time format should be RFC3339 format.: " ++ err.msg

/-- Lines 27-34 of `main`: the start-time gate.  `start` keeps its zero value unless
the iterator type is `AT_TIMESTAMP` and `-start-time` is not empty. -/
def resolveStart (fl : Flags) (env : Env) (p : Proc) : Except Proc (Time × Proc) :=
  if fl.iteratorType = lit "AT_TIMESTAMP" ∧ fl.startTime ≠ [] then
    match env.parseRFC3339 fl.startTime with
    | .error err => .error (fail (parseFailMsg err) p)
    | .ok t => .ok (t, p)
  else
    .ok (Time.zero, p)

/-- The request that `getIterator` builds (lines 70-75). -/
def getIteratorInput (fl : Flags) (stream : GoString) (shard : Shard) (t : Time) :
    GetShardIteratorInput :=
  { ShardId := shard.ShardId, ShardIteratorType := fl.iteratorType, StreamName := stream,
    Timestamp := t }

/-- Lines 69-76: `getIterator`.  `k` is the answer of the service to this
`GetShardIterator` call, as a function of the request; the call is logged. -/
def getIterator (fl : Flags) (k : GetShardIteratorInput → Except GoError GetShardIteratorOutput)
    (stream : GoString) (shard : Shard) (t : Time) (p : Proc) :
    Except GoError GetShardIteratorOutput × Proc :=
  let input := getIteratorInput fl stream shard t
  (k input, { p with calls := p.calls ++ [Call.getShardIterator input] })

/-- The message of line 49. -/
def iteratorFailMsg (shard : Shard) (err : GoError) : GoString :=
  lit "Could not get iterator for shard " ++ shard.ShardId ++ lit ": " ++ err.msg

/-- Lines 47-61: one iteration of the loop over the shards, for the shard at index
`n`: resolve the iterator, `fail` on error, otherwise start the goroutine. -/
def shardIteration (fl : Flags) (env : Env) (stream : GoString) (start : Time) (n : Nat)
    (shard : Shard) (p : Proc) : Except Proc Proc :=
  match getIterator fl (env.getShardIterator n) stream shard start p with
  | (.error err, p1) => .error (fail (iteratorFailMsg shard err) p1)
  | (.ok iterator, p1) =>
    .ok { p1 with started := p1.started ++ [{ shard := shard, iterator := iterator }] }

/-- Lines 46-62: the loop over `streams.StreamDescription.Shards`, as run by the main
goroutine; `n` is the index of the first shard of the list. -/
def shardLoop (fl : Flags) (env : Env) (stream : GoString) (start : Time) :
    Nat → List Shard → Proc → Except Proc Proc
  | _, [], p => .ok p
  | n, shard :: rest, p =>
    match shardIteration fl env stream start n shard p with
    | .error q => .error q
    | .ok p1 => shardLoop fl env stream start (n + 1) rest p1

/-- The message of line 40 (`fmt.Fprintf`, no newline is added). -/
def describeFailMsg (err : GoError) : GoString :=
  lit "Cannot describe stream. Please verify your stream is accessible.: " ++ err.msg

/-- Lines 36-42: stream discovery. -/
def describe (fl : Flags) (env : Env) (p : Proc) : Except Proc (List Shard × Proc) :=
  let streamName := fl.stream
  let p := { p with calls := p.calls ++ [Call.describeStream streamName] }
  match env.describeStream streamName with
  | .error err => .error (os_Exit 1 { p with stderr := p.stderr ++ describeFailMsg err })
  | .ok shards => .ok (shards, p)

/-- Lines 23-44 of `main`: what the main goroutine does before the loop over the
shards; on success it holds `start` and the shard list. -/
def prologue (fl : Flags) (env : Env) : Except Proc (Time × List Shard × Proc) :=
  match getKinesisClient env {} with
  | .error q => .error q
  | .ok p =>
    match resolveStart fl env p with
    | .error q => .error q
    | .ok (start, p) =>
      match describe fl env p with
      | .error q => .error q
      | .ok (shards, p) => .ok (start, shards, p)

/-- Lines 23-62 of `main`: everything the main goroutine does before the loop that
reads the channel. -/
def setup (fl : Flags) (env : Env) : Except Proc Proc :=
  match prologue fl env with
  | .error q => .error q
  | .ok (start, shards, p) => shardLoop fl env fl.stream start 0 shards p

/-- Lines 64-66: the loop over the channel, for the payloads `received` so far. -/
def consume (received : List GoString) (p : Proc) : Proc :=
  received.foldl (fun q record => Println record q) p

/-- Lines 22-67: `main`, as run by the main goroutine, given the payloads it receives
from the channel.  The channel is never closed, so the loop of line 64 does not end. -/
def main (fl : Flags) (env : Env) (received : List GoString) : Proc :=
  match setup fl env with
  | .error q => q
  | .ok p => consume received p

/-! ## Vocabulary of the statements -/

/-- The payloads of one batch, in the order the service returned them. -/
def payloads (r : GetRecordsOutput) : List GoString :=
  r.Records.map (fun x => string x.Data)

/-- The batches of the successful fetches that precede the first failing fetch. -/
def okBefore : List FetchResult → List GetRecordsOutput
  | [] => []
  | .error _ :: _ => []
  | .ok r :: rest => r :: okBefore rest

/-- The cursors that a poller starting from `it` passes to its successive `GetRecords`
calls against a script: a closed form used in the proofs. -/
def cursorsOf : Option GoString → List FetchResult → List (Option GoString)
  | _, [] => []
  | it, .error _ :: _ => [it]
  | it, .ok r :: rest => it :: cursorsOf r.NextShardIterator rest

/-- The number of `GetRecords` calls logged in a list of calls. -/
def fetchCount (cs : List Call) : Nat :=
  (cs.filter (fun c => match c with | .getRecords _ => true | _ => false)).length

/-- The number of newline-terminated lines in a byte sequence. -/
def lineCount (out : GoString) : Nat := out.count newline

/-- The final state of a run of the main goroutine, whether it ended in `os.Exit` or
reached the loop of line 64. -/
def outcome : Except Proc Proc → Proc
  | .error q => q
  | .ok p => p

/-- The `GetShardIterator` request sent for a shard. -/
def iteratorCall (fl : Flags) (stream : GoString) (start : Time) (shard : Shard) : Call :=
  Call.getShardIterator (getIteratorInput fl stream shard start)

/-! ## Concurrent layer

The goroutines of the program, interleaved by a scheduler.  A schedule is a list of
thread numbers: `0` is the main goroutine, `i + 1` the goroutine started for the shard
of index `i`.  Scheduling a thread that cannot move (it waits for the service, for the
channel, or does not exist yet) leaves the state unchanged, and so does any step once
`os.Exit` has been called.  A step is one service call together with the local
statements around it, one channel operation, or one output statement; `fail` is one
step. -/

/-- A Go channel of strings: its capacity and the values buffered in it. -/
structure Chan where
  cap : Nat
  buf : List GoString
deriving DecidableEq, Repr

/-- Expression `make(chan string, cap)`; line 44, `make(chan string)`, is `makeChan 0`. -/
def makeChan (cap : Nat) : Chan := { cap := cap, buf := [] }

/-- A send that completes without a receiver: possible when the buffer is not full. -/
def Chan.sendBuffered (c : Chan) (v : GoString) : Option Chan :=
  if c.buf.length < c.cap then some { c with buf := c.buf ++ [v] } else none

/-- Where the goroutine of a shard stands. -/
inductive PollerPc where
  /-- line 55, about to call `fetchRecords` -/
  | fetch
  /-- inside `fetchRecords` after `GetRecords` returned: the payloads still to be sent
  on `out` (lines 101-103; none after an error) and the values it will return -/
  | sending (pending : List GoString) (result : Except GoError (Option GoString))
  /-- line 59, in `time.Sleep` -/
  | sleeping
deriving DecidableEq, Repr

/-- The goroutine of a shard: its argument `s`, its variable `iter`, where it stands,
and the results the service has yet to return to its `GetRecords` calls.  The fields
`first`, `got`, `asked` and `sent` are history variables: no step reads them. -/
structure Poller where
  s : Shard
  iter : Option GoString
  pc : PollerPc
  script : List FetchResult
  /-- the value of `iterator.ShardIterator` the goroutine started from -/
  first : Option GoString
  /-- the results its `GetRecords` calls have returned, oldest first -/
  got : List FetchResult
  /-- the cursors it has passed to `GetRecords`, oldest first -/
  asked : List (Option GoString)
  /-- the payloads whose send on `records` it has completed, oldest first -/
  sent : List GoString
deriving DecidableEq, Repr

/-- Where the main goroutine stands. -/
inductive MainPc where
  /-- line 46, with `n` shards done and `rest` still to do -/
  | loop (n : Nat) (rest : List Shard)
  /-- line 64, receiving from `records` -/
  | recv
  /-- line 65, about to print the value received -/
  | print (record : GoString)
deriving DecidableEq, Repr

/-- The state of the running program.  The fields `emitted` and `returned` are history
variables: no step reads them. -/
structure Sys where
  proc : Proc
  /-- the variable `start` of `main` -/
  start : Time
  /-- the channel `records` -/
  records : Chan
  main : MainPc
  pollers : List Poller
  /-- operands of the `fmt.Println` calls made, oldest first -/
  emitted : List GoString
  /-- payloads of the records the service has returned in `GetRecords` results, oldest
  first -/
  returned : List GoString
deriving DecidableEq, Repr

/-- The state when the main goroutine reaches line 46: the prologue has run and the
channel has been made.  If the prologue exited, `proc.exit` is set and nothing moves. -/
def boot (fl : Flags) (env : Env) : Sys :=
  match prologue fl env with
  | .error q =>
    { proc := q, start := Time.zero, records := makeChan 0, main := .loop 0 [], pollers := [],
      emitted := [], returned := [] }
  | .ok (start, shards, p) =>
    { proc := p, start := start, records := makeChan 0, main := .loop 0 shards, pollers := [],
      emitted := [], returned := [] }

/-- One step of the main goroutine. -/
def stepMain (fl : Flags) (env : Env) (σ : Sys) : Sys :=
  match σ.main with
  | .loop _ [] => { σ with main := .recv }
  | .loop n (shard :: rest) =>
    match getIterator fl (env.getShardIterator n) fl.stream shard σ.start σ.proc with
    | (.error err, p1) => { σ with proc := fail (iteratorFailMsg shard err) p1 }
    | (.ok iterator, p1) =>
      { σ with
        proc := { p1 with started := p1.started ++ [{ shard := shard, iterator := iterator }] },
        pollers := σ.pollers ++
          [{ s := shard, iter := iterator.ShardIterator, pc := .fetch, script := env.getRecords n,
             first := iterator.ShardIterator, got := [], asked := [], sent := [] }],
        main := .loop (n + 1) rest }
  | .recv =>
    match σ.records.buf with
    | [] => σ
    | v :: buf => { σ with records := { σ.records with buf := buf }, main := .print v }
  | .print record =>
    { σ with proc := Println record σ.proc, emitted := σ.emitted ++ [record], main := .recv }

/-- One step of the goroutine of the shard of index `i`. -/
def stepPoller (i : Nat) (σ : Sys) : Sys :=
  match σ.pollers[i]? with
  | none => σ
  | some g =>
    match g.pc with
    | .fetch =>
      match g.script with
      | [] => σ
      | resp :: script =>
        let proc := { σ.proc with
          calls := σ.proc.calls ++ [Call.getRecords { ShardIterator := g.iter }] }
        match resp with
        | .error err =>
          { σ with proc := proc,
                   pollers := σ.pollers.set i
                     { g with script := script, pc := .sending [] (.error err),
                              got := g.got ++ [.error err], asked := g.asked ++ [g.iter] } }
        | .ok records =>
          { σ with proc := proc,
                   returned := σ.returned ++ records.Records.map (fun r => string r.Data),
                   pollers := σ.pollers.set i
                     { g with script := script,
                              pc := .sending (records.Records.map (fun r => string r.Data))
                                      (.ok records.NextShardIterator),
                              got := g.got ++ [.ok records], asked := g.asked ++ [g.iter] } }
    | .sending (v :: pending) result =>
      match σ.records.sendBuffered v with
      | some c =>
        { σ with records := c, proc := { σ.proc with sink := σ.proc.sink ++ [v] },
                 pollers := σ.pollers.set i
                   { g with pc := .sending pending result, sent := g.sent ++ [v] } }
      | none =>
        match σ.main, σ.records.buf with
        | .recv, [] =>
          { σ with main := .print v, proc := { σ.proc with sink := σ.proc.sink ++ [v] },
                   pollers := σ.pollers.set i
                     { g with pc := .sending pending result, sent := g.sent ++ [v] } }
        | _, _ => σ
    | .sending [] (.error err) => { σ with proc := fail (fetchFailMsg g.s err) σ.proc }
    | .sending [] (.ok next) =>
      { σ with pollers := σ.pollers.set i { g with iter := next, pc := .sleeping } }
    | .sleeping => { σ with pollers := σ.pollers.set i { g with pc := .fetch } }

/-- One step of the thread `t`; nothing moves after `os.Exit`. -/
def step (fl : Flags) (env : Env) (t : Nat) (σ : Sys) : Sys :=
  if σ.proc.exit.isSome then σ
  else
    match t with
    | 0 => stepMain fl env σ
    | i + 1 => stepPoller i σ

/-- The state after a schedule. -/
def run (fl : Flags) (env : Env) (sched : List Nat) (σ : Sys) : Sys :=
  sched.foldl (fun τ t => step fl env t τ) σ

/-- The payloads a goroutine has fetched and not yet sent. -/
def Poller.pending (g : Poller) : List GoString :=
  match g.pc with
  | .sending pending _ => pending
  | _ => []

/-- The goroutine a poller was started as. -/
def Poller.origin (g : Poller) : Started :=
  { shard := g.s, iterator := { ShardIterator := g.first } }

/-- The cursor a poller holds after a sequence of successful fetches, starting from
`it`: the `NextShardIterator` of the last one. -/
def lastNext : Option GoString → List FetchResult → Option GoString
  | it, [] => it
  | _, .ok r :: rest => lastNext r.NextShardIterator rest
  | it, .error _ :: _ => it

/-- How the history of a poller relates to its state: what it has sent and still has
to send are the batches of the successes before the first failure; the cursors asked
are those of the sequential run on the results got; before a fetch and after a
successful one all results got are successes and the cursor held is the last one
returned; after a failed fetch nothing is left to send. -/
def PollerInv (g : Poller) : Prop :=
  g.sent ++ g.pending = (okBefore g.got).flatMap payloads
  ∧ g.asked = cursorsOf g.first g.got
  ∧ match g.pc with
    | .fetch => (okBefore g.got).length = g.got.length ∧ g.iter = lastNext g.first g.got
    | .sleeping => (okBefore g.got).length = g.got.length ∧ g.iter = lastNext g.first g.got
    | .sending _ (.ok next) =>
      (okBefore g.got).length = g.got.length ∧ next = lastNext g.first g.got
    | .sending pending (.error _) => pending = []

/-- The history invariant of the concurrent layer: every poller satisfies `PollerInv`,
and the pollers are, in order, the goroutines started. -/
structure Hist (σ : Sys) : Prop where
  each : ∀ g ∈ σ.pollers, PollerInv g
  born : σ.pollers.map Poller.origin = σ.proc.started

/-- The payload the main goroutine has received and not yet printed. -/
def MainPc.held : MainPc → List GoString
  | .print record => [record]
  | _ => []

/-- The payloads in flight: fetched by a goroutine and not yet printed. -/
def inflight (σ : Sys) : List GoString :=
  σ.pollers.flatMap Poller.pending ++ σ.records.buf ++ σ.main.held

/-- The invariant of the concurrent layer: every payload returned by the service is
either printed or in flight, once each; the channel has capacity 0 and holds nothing;
standard output is the printed payloads, one per line. -/
structure Inv (σ : Sys) : Prop where
  perm : (σ.emitted ++ inflight σ).Perm σ.returned
  cap : σ.records.cap = 0
  buf : σ.records.buf = []
  out : σ.proc.stdout = σ.emitted.flatMap (fun r => r ++ [newline])
  code : σ.proc.exit = none ∨ σ.proc.exit = some 1

/-- The requests of the `GetShardIterator` calls logged in a list of calls, in order. -/
def iterCalls (cs : List Call) : List GetShardIteratorInput :=
  cs.filterMap (fun c => match c with | .getShardIterator input => some input | _ => none)

/-- The progress invariant of the loop over the shards, for a shard list `shards`
whose resolutions succeed with `outs`: for some `k`, the `GetShardIterator` requests
made are those of the first `k` shards, the goroutines started are those of the first
`k` shards with their resolved outputs, and the main goroutine is either in the loop
with `k` shards done, or past the loop with all of them done. -/
def LoopInv (fl : Flags) (start : Time) (shards : List Shard)
    (outs : List GetShardIteratorOutput) (σ : Sys) : Prop :=
  σ.start = start
  ∧ ∃ k, k ≤ shards.length
    ∧ iterCalls σ.proc.calls
        = (shards.take k).map (fun sh => getIteratorInput fl fl.stream sh start)
    ∧ σ.proc.started = List.zipWith Started.mk (shards.take k) (outs.take k)
    ∧ (σ.main = .loop k (shards.drop k)
        ∨ (k = shards.length ∧ ∀ n rest, σ.main ≠ .loop n rest))

/-! ## Example environments -/

/-- A stream with two shards `A` and `B` whose iterators resolve; the first fetch of
`A` fails and the first fetch of `B` returns the one record `r1`. -/
def envAB : Env where
  newSession := .ok ()
  parseRFC3339 := fun _ => .ok Time.zero
  describeStream := fun _ => .ok [⟨lit "A"⟩, ⟨lit "B"⟩]
  getShardIterator := fun n _ => .ok ⟨some [Fin.ofNat n]⟩
  getRecords := fun n => if n = 0 then [.error ⟨lit "boom"⟩] else [.ok ⟨[⟨lit "r1"⟩], none⟩]

/-- A stream with two shards `A` and `B`: the iterator of `A` resolves to `c0` and its
first fetch returns the record `r1`; the iterator of `B` cannot be resolved. -/
def envResolveB : Env where
  newSession := .ok ()
  parseRFC3339 := fun _ => .ok Time.zero
  describeStream := fun _ => .ok [⟨lit "A"⟩, ⟨lit "B"⟩]
  getShardIterator := fun n _ => if n = 1 then .error ⟨lit "no"⟩ else .ok ⟨some (lit "c0")⟩
  getRecords := fun _ => [.ok ⟨[⟨lit "r1"⟩], some (lit "c1")⟩]

/-- A stream with two shards `A` and `B` whose iterators resolve and whose fetches
succeed: `A` returns `a1`, `B` returns `b1` and `b2`. -/
def envQuiet : Env where
  newSession := .ok ()
  parseRFC3339 := fun _ => .ok Time.zero
  describeStream := fun _ => .ok [⟨lit "A"⟩, ⟨lit "B"⟩]
  getShardIterator := fun n _ => .ok ⟨some [Fin.ofNat n]⟩
  getRecords := fun n =>
    if n = 0 then [.ok ⟨[⟨lit "a1"⟩], none⟩] else [.ok ⟨[⟨lit "b1"⟩, ⟨lit "b2"⟩], none⟩]

/-! ## Lemmas -/

theorem foldl_sink (rs : List Record) (p : Proc) :
    rs.foldl (fun q r => { q with sink := q.sink ++ [string r.Data] }) p
      = { p with sink := p.sink ++ rs.map (fun x => string x.Data) } := by
  induction rs generalizing p with
  | nil => simp
  | cons r rs ih => simp [List.foldl, ih]

theorem fetchRecords_ok (r : GetRecordsOutput) (it : Option GoString) (p : Proc) :
    fetchRecords (.ok r) it p
      = (.ok r.NextShardIterator,
          { p with calls := p.calls ++ [Call.getRecords { ShardIterator := it }],
                   sink := p.sink ++ payloads r }) := by
  simp [fetchRecords, foldl_sink, payloads]

theorem fetchRecords_error (e : GoError) (it : Option GoString) (p : Proc) :
    fetchRecords (.error e) it p
      = (.error e, { p with calls := p.calls ++ [Call.getRecords { ShardIterator := it }] }) := by
  simp [fetchRecords]

theorem pollLoop_nil (s : Shard) (it : Option GoString) (p : Proc) :
    pollLoop s it [] p = p := by
  simp [pollLoop]

theorem pollLoop_ok (s : Shard) (it : Option GoString) (r : GetRecordsOutput)
    (script : List FetchResult) (p : Proc) :
    pollLoop s it (.ok r :: script) p
      = pollLoop s r.NextShardIterator script
          { p with calls := p.calls ++ [Call.getRecords { ShardIterator := it }],
                   sink := p.sink ++ payloads r } := by
  simp [pollLoop, fetchRecords_ok]

theorem pollLoop_error (s : Shard) (it : Option GoString) (e : GoError)
    (script : List FetchResult) (p : Proc) :
    pollLoop s it (.error e :: script) p
      = fail (fetchFailMsg s e)
          { p with calls := p.calls ++ [Call.getRecords { ShardIterator := it }] } := by
  simp [pollLoop, fetchRecords_error]

theorem pollLoop_sink (s : Shard) (it : Option GoString) (script : List FetchResult) (p : Proc) :
    (pollLoop s it script p).sink = p.sink ++ (okBefore script).flatMap payloads := by
  induction script generalizing it p with
  | nil => simp [pollLoop_nil, okBefore]
  | cons resp script ih =>
    cases resp with
    | error e => simp [pollLoop_error, okBefore, fail, os_Exit, Fprintln_stderr]
    | ok r => simp [pollLoop_ok, okBefore, ih]

theorem pollLoop_calls (s : Shard) (it : Option GoString) (script : List FetchResult) (p : Proc) :
    (pollLoop s it script p).calls
      = p.calls ++ (cursorsOf it script).map (fun c => Call.getRecords { ShardIterator := c }) := by
  induction script generalizing it p with
  | nil => simp [pollLoop_nil, cursorsOf]
  | cons resp script ih =>
    cases resp with
    | error e => simp [pollLoop_error, cursorsOf, fail, os_Exit, Fprintln_stderr]
    | ok r => simp [pollLoop_ok, cursorsOf, ih]

theorem cursorsOf_length (it : Option GoString) (script : List FetchResult) :
    (cursorsOf it script).length = min script.length ((okBefore script).length + 1) := by
  induction script generalizing it with
  | nil => simp [cursorsOf]
  | cons resp script ih =>
    cases resp with
    | error e => simp [cursorsOf, okBefore]
    | ok r => simp only [cursorsOf, okBefore, List.length_cons, ih]; omega

theorem cursorsOf_succ (it : Option GoString) (script : List FetchResult) (k : Nat)
    (c : Option GoString) (h : (cursorsOf it script)[k + 1]? = some c) :
    ∃ r, script[k]? = some (.ok r) ∧ c = r.NextShardIterator := by
  induction script generalizing it k with
  | nil => simp [cursorsOf] at h
  | cons resp script ih =>
    cases resp with
    | error e => simp [cursorsOf] at h
    | ok r =>
      simp only [cursorsOf, List.getElem?_cons_succ] at h
      cases k with
      | zero =>
        refine ⟨r, by simp, ?_⟩
        cases script with
        | nil => simp [cursorsOf] at h
        | cons resp2 script2 =>
          cases resp2 with
          | error e => simp [cursorsOf] at h; exact h.symm
          | ok r2 => simp [cursorsOf] at h; exact h.symm
      | succ k =>
        obtain ⟨r2, h1, h2⟩ := ih r.NextShardIterator k h
        exact ⟨r2, by simpa using h1, h2⟩

theorem fetchCount_append (a b : List Call) : fetchCount (a ++ b) = fetchCount a + fetchCount b := by
  simp [fetchCount]

theorem fetchCount_getRecords (cs : List (Option GoString)) :
    fetchCount (cs.map (fun c => Call.getRecords { ShardIterator := c })) = cs.length := by
  induction cs with
  | nil => simp [fetchCount]
  | cons c cs ih => simp [fetchCount] at ih ⊢; exact ih

theorem pollLoop_append_after_error (s : Shard) (it : Option GoString)
    (script rest : List FetchResult) (e : GoError) (p : Proc) :
    pollLoop s it (script ++ .error e :: rest) p = pollLoop s it (script ++ [.error e]) p := by
  induction script generalizing it p with
  | nil => simp [pollLoop_error]
  | cons resp script ih =>
    cases resp with
    | error e2 => simp [pollLoop_error]
    | ok r => simp [pollLoop_ok, ih]

theorem shardIteration_ok (fl : Flags) (env : Env) (stream : GoString) (start : Time) (n : Nat)
    (shard : Shard) (p : Proc) (out : GetShardIteratorOutput)
    (h : env.getShardIterator n (getIteratorInput fl stream shard start) = .ok out) :
    shardIteration fl env stream start n shard p
      = .ok { p with calls := p.calls ++ [iteratorCall fl stream start shard],
                     started := p.started ++ [{ shard := shard, iterator := out }] } := by
  simp [shardIteration, getIterator, h, iteratorCall]

theorem shardIteration_error (fl : Flags) (env : Env) (stream : GoString) (start : Time) (n : Nat)
    (shard : Shard) (p : Proc) (e : GoError)
    (h : env.getShardIterator n (getIteratorInput fl stream shard start) = .error e) :
    shardIteration fl env stream start n shard p
      = .error (fail (iteratorFailMsg shard e)
          { p with calls := p.calls ++ [iteratorCall fl stream start shard] }) := by
  simp [shardIteration, getIterator, h, iteratorCall]

theorem shardLoop_ok (fl : Flags) (env : Env) (stream : GoString) (start : Time)
    (shards : List Shard) (outs : List GetShardIteratorOutput) (n : Nat) (p : Proc)
    (hlen : outs.length = shards.length)
    (h : ∀ i (h1 : i < shards.length) (h2 : i < outs.length),
      env.getShardIterator (n + i) (getIteratorInput fl stream shards[i] start) = .ok outs[i]) :
    shardLoop fl env stream start n shards p
      = .ok { p with calls := p.calls ++ shards.map (iteratorCall fl stream start),
                     started := p.started ++ List.zipWith Started.mk shards outs } := by
  induction shards generalizing outs n p with
  | nil => simp [shardLoop]
  | cons sh rest ih =>
    cases outs with
    | nil => simp at hlen
    | cons o outs =>
      have h0 := h 0 (by simp) (by simp)
      simp only [Nat.add_zero, List.getElem_cons_zero] at h0
      have hrest : ∀ i (h1 : i < rest.length) (h2 : i < outs.length),
          env.getShardIterator (n + 1 + i) (getIteratorInput fl stream rest[i] start)
            = .ok outs[i] := by
        intro i h1 h2
        have := h (i + 1) (by simpa using h1) (by simpa using h2)
        simpa [Nat.add_assoc, Nat.add_comm 1 i] using this
      simp only [shardLoop, shardIteration_ok fl env stream start n sh p o h0]
      rw [ih outs (n + 1) _ (by simpa using hlen) hrest]
      simp

theorem shardLoop_append (fl : Flags) (env : Env) (stream : GoString) (start : Time)
    (a b : List Shard) (n : Nat) (p : Proc) :
    shardLoop fl env stream start n (a ++ b) p
      = match shardLoop fl env stream start n a p with
        | .error q => .error q
        | .ok p1 => shardLoop fl env stream start (n + a.length) b p1 := by
  induction a generalizing n p with
  | nil => simp [shardLoop]
  | cons sh rest ih =>
    simp only [List.cons_append, shardLoop]
    cases hs : shardIteration fl env stream start n sh p with
    | error q => simp
    | ok p1 =>
      have hlen : n + (rest.length + 1) = n + 1 + rest.length := by omega
      simp only [List.length_cons, hlen]
      exact ih (n + 1) p1

theorem shardLoop_fails_at (fl : Flags) (env : Env) (stream : GoString) (start : Time)
    (shards : List Shard) (outs : List GetShardIteratorOutput) (i : Nat) (e : GoError) (p : Proc)
    (hi : i < shards.length) (hlen : outs.length = i)
    (hok : ∀ j (h1 : j < shards.length) (h2 : j < outs.length),
      env.getShardIterator j (getIteratorInput fl stream shards[j] start) = .ok outs[j])
    (herr : env.getShardIterator i (getIteratorInput fl stream shards[i] start) = .error e) :
    shardLoop fl env stream start 0 shards p
      = .error (fail (iteratorFailMsg shards[i] e)
          { p with calls := p.calls ++ (shards.take (i + 1)).map (iteratorCall fl stream start),
                   started := p.started ++ List.zipWith Started.mk (shards.take i) outs }) := by
  have hsplit : shards = shards.take i ++ shards[i] :: shards.drop (i + 1) := by
    rw [← List.drop_eq_getElem_cons hi, List.take_append_drop]
  have hshape : shardLoop fl env stream start 0 shards p
      = shardLoop fl env stream start 0 (shards.take i ++ shards[i] :: shards.drop (i + 1)) p := by
    rw [← hsplit]
  rw [hshape, shardLoop_append]
  have htake : (shards.take i).length = i := by
    rw [List.length_take]; omega
  rw [shardLoop_ok fl env stream start (shards.take i) outs 0 p (by rw [htake, hlen])]
  · simp only [shardLoop, htake, Nat.zero_add]
    rw [shardIteration_error fl env stream start i shards[i] _ e herr]
    have h3 : shards.take (i + 1) = shards.take i ++ [shards[i]] := by
      rw [List.take_succ, List.getElem?_eq_getElem hi]; rfl
    rw [h3]
    simp only [List.map_append, List.map_cons, List.map_nil, List.append_assoc]
  · intro j h1 h2
    have hj : j < shards.length := by omega
    have h4 := hok j hj h2
    rw [Nat.zero_add, List.getElem_take]
    exact h4

theorem shardLoop_calls_mem (fl : Flags) (env : Env) (stream : GoString) (start : Time)
    (shards : List Shard) (n : Nat) (p : Proc) (c : Call)
    (h : c ∈ (outcome (shardLoop fl env stream start n shards p)).calls) :
    c ∈ p.calls ∨ ∃ sh ∈ shards, c = iteratorCall fl stream start sh := by
  induction shards generalizing n p with
  | nil => left; simpa [shardLoop, outcome] using h
  | cons sh rest ih =>
    simp only [shardLoop] at h
    cases hk : env.getShardIterator n (getIteratorInput fl stream sh start) with
    | error e =>
      rw [shardIteration_error _ _ _ _ _ _ _ _ hk] at h
      simp [outcome, fail, os_Exit, Fprintln_stderr] at h
      rcases h with h | h
      · exact Or.inl h
      · exact Or.inr ⟨sh, by simp, h⟩
    | ok out =>
      rw [shardIteration_ok _ _ _ _ _ _ _ _ hk] at h
      rcases ih _ _ h with h | ⟨x, hx, hc⟩
      · simp at h
        rcases h with h | h
        · exact Or.inl h
        · exact Or.inr ⟨sh, by simp, h⟩
      · exact Or.inr ⟨x, by simp [hx], hc⟩

theorem shardLoop_calls_grow (fl : Flags) (env : Env) (stream : GoString) (start : Time)
    (shards : List Shard) (n : Nat) (p : Proc) :
    ∃ l, (outcome (shardLoop fl env stream start n shards p)).calls = p.calls ++ l := by
  induction shards generalizing n p with
  | nil => exact ⟨[], by simp [shardLoop, outcome]⟩
  | cons sh rest ih =>
    simp only [shardLoop]
    cases hk : env.getShardIterator n (getIteratorInput fl stream sh start) with
    | error e =>
      rw [shardIteration_error _ _ _ _ _ _ _ _ hk]
      exact ⟨[iteratorCall fl stream start sh], rfl⟩
    | ok out =>
      rw [shardIteration_ok _ _ _ _ _ _ _ _ hk]
      obtain ⟨l, hl⟩ := ih (n + 1)
        { p with calls := p.calls ++ [iteratorCall fl stream start sh],
                 started := p.started ++ [{ shard := sh, iterator := out }] }
      exact ⟨iteratorCall fl stream start sh :: l, by simp [hl]⟩

theorem fail_exit (msg : GoString) (p : Proc) : (fail msg p).exit = some 1 := rfl

theorem fail_stderr (msg : GoString) (p : Proc) :
    (fail msg p).stderr = p.stderr ++ msg ++ [newline] := rfl

theorem fail_calls (msg : GoString) (p : Proc) : (fail msg p).calls = p.calls := rfl

theorem fail_started (msg : GoString) (p : Proc) : (fail msg p).started = p.started := rfl

theorem shardLoop_error_exit (fl : Flags) (env : Env) (stream : GoString) (start : Time)
    (shards : List Shard) (n : Nat) (p q : Proc)
    (h : shardLoop fl env stream start n shards p = .error q) :
    q.exit = some 1 ∧ q.stderr ≠ [] := by
  induction shards generalizing n p with
  | nil => simp [shardLoop] at h
  | cons sh rest ih =>
    simp only [shardLoop] at h
    cases hk : env.getShardIterator n (getIteratorInput fl stream sh start) with
    | error e =>
      rw [shardIteration_error _ _ _ _ _ _ _ _ hk] at h
      simp at h
      subst h
      simp [fail_exit, fail_stderr]
    | ok out =>
      rw [shardIteration_ok _ _ _ _ _ _ _ _ hk] at h
      exact ih _ _ h

theorem shardLoop_ok_exit (fl : Flags) (env : Env) (stream : GoString) (start : Time)
    (shards : List Shard) (n : Nat) (p q : Proc)
    (h : shardLoop fl env stream start n shards p = .ok q) :
    q.exit = p.exit ∧ q.stdout = p.stdout ∧ q.stderr = p.stderr := by
  induction shards generalizing n p with
  | nil => simp [shardLoop] at h; subst h; simp
  | cons sh rest ih =>
    simp only [shardLoop] at h
    cases hk : env.getShardIterator n (getIteratorInput fl stream sh start) with
    | error e =>
      rw [shardIteration_error _ _ _ _ _ _ _ _ hk] at h
      simp at h
    | ok out =>
      rw [shardIteration_ok _ _ _ _ _ _ _ _ hk] at h
      simpa using ih _ _ h

theorem shardLoop_fails_if_any (fl : Flags) (env : Env) (stream : GoString) (start : Time)
    (shards : List Shard) (n : Nat) (p : Proc) (i : Nat) (hi : i < shards.length) (e : GoError)
    (herr : env.getShardIterator (n + i) (getIteratorInput fl stream shards[i] start) = .error e) :
    ∃ q, shardLoop fl env stream start n shards p = .error q := by
  induction shards generalizing n p i with
  | nil => simp at hi
  | cons sh rest ih =>
    simp only [shardLoop]
    cases hk : env.getShardIterator n (getIteratorInput fl stream sh start) with
    | error e2 =>
      rw [shardIteration_error _ _ _ _ _ _ _ _ hk]
      exact ⟨_, rfl⟩
    | ok out =>
      rw [shardIteration_ok _ _ _ _ _ _ _ _ hk]
      cases i with
      | zero => simp [hk] at herr
      | succ i =>
        have hi2 : i < rest.length := by simpa using hi
        apply ih (n + 1) _ i hi2
        simpa [Nat.add_assoc, Nat.add_comm 1 i] using herr

theorem shardLoop_startTime (fl : Flags) (env : Env) (stream : GoString) (start : Time)
    (s : GoString) (shards : List Shard) (n : Nat) (p : Proc) :
    shardLoop { fl with startTime := s } env stream start n shards p
      = shardLoop fl env stream start n shards p := by
  induction shards generalizing n p with
  | nil => simp [shardLoop]
  | cons sh rest ih =>
    simp only [shardLoop, shardIteration, getIterator, getIteratorInput, ih]

theorem setup_session_error (fl : Flags) (env : Env) (e : GoError)
    (hs : env.newSession = .error e) :
    setup fl env = .error (fail (sessionFailMsg e) {}) := by
  simp [setup, prologue, getKinesisClient, hs]

theorem setup_gate_error (fl : Flags) (env : Env) (u : Unit) (q : Proc)
    (hs : env.newSession = .ok u) (hg : resolveStart fl env {} = .error q) :
    setup fl env = .error q := by
  simp [setup, prologue, getKinesisClient, hs, hg]

theorem setup_describe_error (fl : Flags) (env : Env) (u : Unit) (start : Time) (e : GoError)
    (hs : env.newSession = .ok u) (hg : resolveStart fl env {} = .ok (start, {}))
    (hd : env.describeStream fl.stream = .error e) :
    setup fl env
      = .error (os_Exit 1 { stderr := describeFailMsg e,
                            calls := [Call.describeStream fl.stream] }) := by
  simp [setup, prologue, getKinesisClient, hs, hg, describe, hd]

theorem setup_describe_ok (fl : Flags) (env : Env) (u : Unit) (start : Time)
    (shards : List Shard)
    (hs : env.newSession = .ok u) (hg : resolveStart fl env {} = .ok (start, {}))
    (hd : env.describeStream fl.stream = .ok shards) :
    setup fl env
      = shardLoop fl env fl.stream start 0 shards { calls := [Call.describeStream fl.stream] } := by
  simp [setup, prologue, getKinesisClient, hs, hg, describe, hd]

theorem resolveStart_cases (fl : Flags) (env : Env) (p : Proc) :
    (∃ e, resolveStart fl env p = .error (fail (parseFailMsg e) p))
      ∨ ∃ t, resolveStart fl env p = .ok (t, p) := by
  unfold resolveStart
  split
  · cases env.parseRFC3339 fl.startTime with
    | error e => exact Or.inl ⟨e, rfl⟩
    | ok t => exact Or.inr ⟨t, rfl⟩
  · exact Or.inr ⟨Time.zero, rfl⟩

theorem setup_timestamp (fl : Flags) (env : Env) (t : Time)
    (hg : resolveStart fl env {} = .ok (t, {})) (input : GetShardIteratorInput)
    (h : Call.getShardIterator input ∈ (outcome (setup fl env)).calls) :
    input.Timestamp = t := by
  cases hs : env.newSession with
  | error e =>
    rw [setup_session_error fl env e hs] at h
    simp [outcome, fail_calls] at h
  | ok u =>
    cases hd : env.describeStream fl.stream with
    | error e =>
      rw [setup_describe_error fl env u t e hs hg hd] at h
      simp [outcome, os_Exit] at h
    | ok shards =>
      rw [setup_describe_ok fl env u t shards hs hg hd] at h
      rcases shardLoop_calls_mem _ _ _ _ _ _ _ _ h with h | ⟨sh, _, hc⟩
      · simp at h
      · simp only [iteratorCall, Call.getShardIterator.injEq] at hc
        rw [hc]
        rfl

theorem litNonempty_describe (e : GoError) : describeFailMsg e ≠ [] := by
  simp [describeFailMsg, lit]

theorem setup_error_exit (fl : Flags) (env : Env) (q : Proc) (h : setup fl env = .error q) :
    q.exit = some 1 ∧ q.stderr ≠ [] := by
  cases hs : env.newSession with
  | error e =>
    rw [setup_session_error fl env e hs] at h
    simp at h
    subst h
    simp [fail_exit, fail_stderr]
  | ok u =>
    rcases resolveStart_cases fl env {} with ⟨e, hg⟩ | ⟨t, hg⟩
    · rw [setup_gate_error fl env u _ hs hg] at h
      simp at h
      subst h
      simp [fail_exit, fail_stderr]
    · cases hd : env.describeStream fl.stream with
      | error e =>
        rw [setup_describe_error fl env u t e hs hg hd] at h
        simp at h
        subst h
        exact ⟨rfl, litNonempty_describe e⟩
      | ok shards =>
        rw [setup_describe_ok fl env u t shards hs hg hd] at h
        exact shardLoop_error_exit _ _ _ _ _ _ _ _ h

theorem setup_ok_quiet (fl : Flags) (env : Env) (p : Proc) (h : setup fl env = .ok p) :
    p.exit = none ∧ p.stdout = [] ∧ p.stderr = [] := by
  cases hs : env.newSession with
  | error e =>
    rw [setup_session_error fl env e hs] at h
    simp at h
  | ok u =>
    rcases resolveStart_cases fl env {} with ⟨e, hg⟩ | ⟨t, hg⟩
    · rw [setup_gate_error fl env u _ hs hg] at h
      simp at h
    · cases hd : env.describeStream fl.stream with
      | error e =>
        rw [setup_describe_error fl env u t e hs hg hd] at h
        simp at h
      | ok shards =>
        rw [setup_describe_ok fl env u t shards hs hg hd] at h
        simpa using shardLoop_ok_exit _ _ _ _ _ _ _ _ h

theorem consume_stdout (received : List GoString) (p : Proc) :
    consume received p
      = { p with stdout := p.stdout ++ received.flatMap (fun r => r ++ [newline]) } := by
  induction received generalizing p with
  | nil => simp [consume]
  | cons r rest ih =>
    simp only [consume, List.foldl_cons] at ih ⊢
    rw [ih]
    simp [Println]

theorem lineCount_append (a b : GoString) : lineCount (a ++ b) = lineCount a + lineCount b := by
  simp [lineCount]

theorem lineCount_lines (received : List GoString) :
    lineCount (received.flatMap (fun r => r ++ [newline]))
      = received.length + (received.map lineCount).sum := by
  induction received with
  | nil => simp [lineCount]
  | cons r rest ih =>
    simp only [List.flatMap_cons, lineCount_append, ih, List.length_cons, List.map_cons,
      List.sum_cons]
    have : lineCount [newline] = 1 := by simp [lineCount]
    omega

theorem pollLoop_fails (s : Shard) (it : Option GoString) (script : List FetchResult) (p : Proc)
    (e : GoError) (h : .error e ∈ script) :
    (pollLoop s it script p).exit = some 1 ∧ (pollLoop s it script p).stderr ≠ [] := by
  induction script generalizing it p with
  | nil => simp at h
  | cons resp rest ih =>
    cases resp with
    | error e2 => simp [pollLoop_error, fail_exit, fail_stderr]
    | ok r =>
      rw [pollLoop_ok]
      apply ih
      simpa using h

theorem pollLoop_exit (s : Shard) (it : Option GoString) (script : List FetchResult) (p : Proc) :
    (pollLoop s it script p).exit = p.exit ∨ (pollLoop s it script p).exit = some 1 := by
  induction script generalizing it p with
  | nil => simp [pollLoop_nil]
  | cons resp rest ih =>
    cases resp with
    | error e2 => simp [pollLoop_error, fail_exit]
    | ok r =>
      rw [pollLoop_ok]
      simpa using ih r.NextShardIterator _

theorem count_inst (x : GoString) (l : List GoString) :
    @List.count GoString instBEqOfDecidableEq x l = List.count x l := by
  unfold List.count
  congr 1
  funext a
  by_cases h : a = x
  · subst h; simp
  · have h1 : (a == x) = false := by simpa using h
    rw [h1]
    exact decide_eq_false h

theorem perm_of_count (l m : List GoString) (h : ∀ x, List.count x l = List.count x m) :
    l.Perm m := by
  rw [List.perm_iff_count]
  intro x
  rw [count_inst, count_inst]
  exact h x

theorem count_of_perm (l m : List GoString) (h : l.Perm m) (x : GoString) :
    List.count x l = List.count x m :=
  h.countP_eq _

theorem count_flatMap_set {α β : Type} [BEq β] (f : α → List β) (l : List α) (i : Nat)
    (a b : α) (h : l[i]? = some a) (x : β) :
    ((l.set i b).flatMap f).count x + (f a).count x
      = (l.flatMap f).count x + (f b).count x := by
  induction l generalizing i with
  | nil => simp at h
  | cons y ys ih =>
    cases i with
    | zero =>
      simp only [List.getElem?_cons_zero, Option.some.injEq] at h
      subst h
      simp only [List.set_cons_zero, List.flatMap_cons, List.count_append]
      omega
    | succ k =>
      simp only [List.getElem?_cons_succ] at h
      have := ih k h
      simp only [List.set_cons_succ, List.flatMap_cons, List.count_append]
      omega

theorem prologue_stdout (fl : Flags) (env : Env) :
    (∀ q, prologue fl env = .error q → q.stdout = [] ∧ q.exit = some 1)
    ∧ (∀ start shards p, prologue fl env = .ok (start, shards, p) →
        p.stdout = [] ∧ p.exit = none) := by
  unfold prologue getKinesisClient
  cases env.newSession with
  | error e => simp [fail, os_Exit, Fprintln_stderr]
  | ok u =>
    rcases resolveStart_cases fl env {} with ⟨e, hg⟩ | ⟨t, hg⟩
    · simp [hg, fail, os_Exit, Fprintln_stderr]
    · simp only [hg, describe]
      cases env.describeStream fl.stream with
      | error e => simp [os_Exit]
      | ok shards =>
        simp only [reduceCtorEq, false_implies, implies_true, true_and]
        intro start shards2 p hp
        simp only [Except.ok.injEq, Prod.mk.injEq] at hp
        rw [← hp.2.2]
        exact ⟨rfl, rfl⟩

theorem boot_inv (fl : Flags) (env : Env) : Inv (boot fl env) := by
  unfold boot
  cases h : prologue fl env with
  | error q =>
    exact ⟨by simp [inflight, makeChan, MainPc.held], rfl, rfl,
      by simpa using ((prologue_stdout fl env).1 q h).1,
      Or.inr ((prologue_stdout fl env).1 q h).2⟩
  | ok r =>
    obtain ⟨start, shards, p⟩ := r
    exact ⟨by simp [inflight, makeChan, MainPc.held], rfl, rfl,
      by simpa using ((prologue_stdout fl env).2 start shards p h).1,
      Or.inl ((prologue_stdout fl env).2 start shards p h).2⟩

theorem stepMain_inv (fl : Flags) (env : Env) (σ : Sys) (h : Inv σ) : Inv (stepMain fl env σ) := by
  obtain ⟨hp, hcap, hbuf, hout, hcode⟩ := h
  have hc : ∀ x, σ.emitted.count x + (inflight σ).count x = σ.returned.count x := by
    intro x
    rw [← List.count_append]
    exact count_of_perm _ _ hp x
  unfold stepMain
  split
  · rename_i n hm
    refine ⟨perm_of_count _ _ ?_, hcap, hbuf, hout, hcode⟩
    intro x
    have := hc x
    simp only [inflight, hm, MainPc.held, List.count_append] at this ⊢
    exact this
  · rename_i n shard rest hm
    simp only [getIterator]
    split
    · rename_i err p1 hk
      simp only [Prod.mk.injEq] at hk
      refine ⟨hp, hcap, hbuf, ?_, Or.inr rfl⟩
      rw [← hk.2]
      exact hout
    · rename_i iterator p1 hk
      simp only [Prod.mk.injEq] at hk
      refine ⟨perm_of_count _ _ ?_, hcap, hbuf, ?_, ?_⟩
      · intro x
        have := hc x
        simp only [inflight, hm, MainPc.held, List.flatMap_append, List.flatMap_cons,
          List.flatMap_nil, Poller.pending, List.append_nil, List.count_append] at this ⊢
        omega
      · rw [← hk.2]
        exact hout
      · rw [← hk.2]
        exact hcode
  · rename_i hm
    rw [hbuf]
    exact ⟨hp, hcap, hbuf, hout, hcode⟩
  · rename_i record hm
    refine ⟨perm_of_count _ _ ?_, hcap, hbuf, ?_, hcode⟩
    · intro x
      have := hc x
      simp only [inflight, hm, MainPc.held, List.count_append, List.count_nil] at this ⊢
      omega
    · simp [Println, hout]

theorem stepPoller_inv (i : Nat) (σ : Sys) (h : Inv σ) : Inv (stepPoller i σ) := by
  obtain ⟨hp, hcap, hbuf, hout, hcode⟩ := h
  have hc : ∀ x, σ.emitted.count x + (inflight σ).count x = σ.returned.count x := by
    intro x
    rw [← List.count_append]
    exact count_of_perm _ _ hp x
  unfold stepPoller
  split
  · exact ⟨hp, hcap, hbuf, hout, hcode⟩
  · rename_i g hg
    split
    · rename_i hpc
      split
      · exact ⟨hp, hcap, hbuf, hout, hcode⟩
      · rename_i resp script hs
        split
        · rename_i err
          refine ⟨perm_of_count _ _ ?_, hcap, hbuf, hout, hcode⟩
          intro x
          have h1 := hc x
          have h2 := count_flatMap_set Poller.pending σ.pollers i g
            { g with script := script, pc := .sending [] (.error err),
                     got := g.got ++ [.error err], asked := g.asked ++ [g.iter] } hg x
          simp only [inflight, List.count_append, Poller.pending, hpc, List.count_nil] at h1 h2 ⊢
          omega
        · rename_i records
          refine ⟨perm_of_count _ _ ?_, hcap, hbuf, hout, hcode⟩
          intro x
          have h1 := hc x
          have h2 := count_flatMap_set Poller.pending σ.pollers i g
            { g with script := script,
                     pc := .sending (records.Records.map (fun r => string r.Data))
                             (.ok records.NextShardIterator),
                     got := g.got ++ [.ok records], asked := g.asked ++ [g.iter] } hg x
          simp only [inflight, List.count_append, Poller.pending, hpc, List.count_nil] at h1 h2 ⊢
          omega
    · rename_i v pending result hpc
      have hsb : σ.records.sendBuffered v = none := by
        simp [Chan.sendBuffered, hcap]
      simp only [hsb]
      split
      · rename_i hm hb
        refine ⟨perm_of_count _ _ ?_, hcap, hbuf, hout, hcode⟩
        intro x
        have h1 := hc x
        have h2 := count_flatMap_set Poller.pending σ.pollers i g
          { g with pc := .sending pending result, sent := g.sent ++ [v] } hg x
        simp only [inflight, List.count_append, Poller.pending, hpc, List.count_nil, hm,
          MainPc.held, List.count_cons, List.count_singleton] at h1 h2 ⊢
        omega
      · exact ⟨hp, hcap, hbuf, hout, hcode⟩
    · rename_i err hpc
      exact ⟨hp, hcap, hbuf, hout, Or.inr rfl⟩
    · rename_i next hpc
      refine ⟨perm_of_count _ _ ?_, hcap, hbuf, hout, hcode⟩
      intro x
      have h1 := hc x
      have h2 := count_flatMap_set Poller.pending σ.pollers i g
        { g with iter := next, pc := .sleeping } hg x
      simp only [inflight, List.count_append, Poller.pending, hpc, List.count_nil] at h1 h2 ⊢
      omega
    · rename_i hpc
      refine ⟨perm_of_count _ _ ?_, hcap, hbuf, hout, hcode⟩
      intro x
      have h1 := hc x
      have h2 := count_flatMap_set Poller.pending σ.pollers i g { g with pc := .fetch } hg x
      simp only [inflight, List.count_append, Poller.pending, hpc, List.count_nil] at h1 h2 ⊢
      omega

theorem step_inv (fl : Flags) (env : Env) (t : Nat) (σ : Sys) (h : Inv σ) :
    Inv (step fl env t σ) := by
  unfold step
  split
  · exact h
  · cases t with
    | zero => exact stepMain_inv fl env σ h
    | succ i => exact stepPoller_inv i σ h

theorem run_inv (fl : Flags) (env : Env) (sched : List Nat) (σ : Sys) (h : Inv σ) :
    Inv (run fl env sched σ) := by
  induction sched generalizing σ with
  | nil => exact h
  | cons t rest ih => exact ih _ (step_inv fl env t σ h)

theorem reach_inv (fl : Flags) (env : Env) (sched : List Nat) :
    Inv (run fl env sched (boot fl env)) :=
  run_inv fl env sched _ (boot_inv fl env)

theorem okBefore_length_le (got : List FetchResult) : (okBefore got).length ≤ got.length := by
  induction got with
  | nil => simp [okBefore]
  | cons resp rest ih =>
    cases resp with
    | error e => simp [okBefore]
    | ok r => simp only [okBefore, List.length_cons]; omega

theorem cursorsOf_append_one (first : Option GoString) (got : List FetchResult)
    (resp : FetchResult) (h : (okBefore got).length = got.length) :
    cursorsOf first (got ++ [resp]) = cursorsOf first got ++ [lastNext first got] := by
  induction got generalizing first with
  | nil => cases resp <;> simp [cursorsOf, lastNext]
  | cons r0 rest ih =>
    cases r0 with
    | error e => simp [okBefore] at h
    | ok r =>
      simp only [okBefore, List.length_cons, Nat.add_right_cancel_iff] at h
      simp [cursorsOf, lastNext, ih r.NextShardIterator h]

theorem okBefore_append_ok (got : List FetchResult) (r : GetRecordsOutput)
    (h : (okBefore got).length = got.length) :
    okBefore (got ++ [.ok r]) = okBefore got ++ [r] := by
  induction got with
  | nil => simp [okBefore]
  | cons r0 rest ih =>
    cases r0 with
    | error e => simp [okBefore] at h
    | ok r1 =>
      simp only [okBefore, List.length_cons, Nat.add_right_cancel_iff] at h
      simp [okBefore, ih h]

theorem lastNext_append_ok (first : Option GoString) (got : List FetchResult)
    (r : GetRecordsOutput) (h : (okBefore got).length = got.length) :
    lastNext first (got ++ [.ok r]) = r.NextShardIterator := by
  induction got generalizing first with
  | nil => simp [lastNext]
  | cons r0 rest ih =>
    cases r0 with
    | error e => simp [okBefore] at h
    | ok r1 =>
      simp only [okBefore, List.length_cons, Nat.add_right_cancel_iff] at h
      simp [lastNext, ih r1.NextShardIterator h]

theorem okBefore_append_error (got : List FetchResult) (e : GoError) :
    okBefore (got ++ [.error e]) = okBefore got := by
  induction got with
  | nil => simp [okBefore]
  | cons r0 rest ih => cases r0 <;> simp [okBefore, ih]

theorem map_origin_set (l : List Poller) (i : Nat) (g b : Poller) (h : l[i]? = some g)
    (hb : b.origin = g.origin) : (l.set i b).map Poller.origin = l.map Poller.origin := by
  induction l generalizing i with
  | nil => simp
  | cons y ys ih =>
    cases i with
    | zero =>
      simp only [List.getElem?_cons_zero, Option.some.injEq] at h
      subst h
      simp [hb]
    | succ k =>
      simp only [List.getElem?_cons_succ] at h
      simp [ih k h]

theorem hist_set (σ : Sys) (h : Hist σ) (i : Nat) (g b : Poller) (hg : σ.pollers[i]? = some g)
    (hb : b.origin = g.origin) (hinv : PollerInv b) :
    (∀ x ∈ σ.pollers.set i b, PollerInv x)
    ∧ (σ.pollers.set i b).map Poller.origin = σ.proc.started := by
  constructor
  · intro x hx
    rcases List.mem_or_eq_of_mem_set hx with hx | hx
    · exact h.each x hx
    · rw [hx]; exact hinv
  · rw [map_origin_set _ _ g b hg hb]
    exact h.born

theorem prologue_started (fl : Flags) (env : Env) :
    (∀ q, prologue fl env = .error q → q.started = [])
    ∧ (∀ start shards p, prologue fl env = .ok (start, shards, p) → p.started = []) := by
  unfold prologue getKinesisClient
  cases env.newSession with
  | error e => simp [fail, os_Exit, Fprintln_stderr]
  | ok u =>
    rcases resolveStart_cases fl env {} with ⟨e, hg⟩ | ⟨t, hg⟩
    · simp [hg, fail, os_Exit, Fprintln_stderr]
    · simp only [hg, describe]
      cases env.describeStream fl.stream with
      | error e => simp [os_Exit]
      | ok shards =>
        simp only [reduceCtorEq, false_implies, implies_true, true_and]
        intro start shards2 p hp
        simp only [Except.ok.injEq, Prod.mk.injEq] at hp
        rw [← hp.2.2]

theorem boot_hist (fl : Flags) (env : Env) : Hist (boot fl env) := by
  unfold boot
  cases h : prologue fl env with
  | error q =>
    exact ⟨by simp, by simpa using ((prologue_started fl env).1 q h).symm⟩
  | ok r =>
    obtain ⟨start, shards, p⟩ := r
    exact ⟨by simp, by simpa using ((prologue_started fl env).2 start shards p h).symm⟩

theorem stepMain_hist (fl : Flags) (env : Env) (σ : Sys) (h : Hist σ) :
    Hist (stepMain fl env σ) := by
  obtain ⟨heach, hborn⟩ := h
  unfold stepMain
  split
  · exact ⟨heach, hborn⟩
  · rename_i n shard rest hm
    simp only [getIterator]
    split
    · rename_i err p1 hk
      simp only [Prod.mk.injEq] at hk
      refine ⟨heach, ?_⟩
      rw [fail_started, ← hk.2]
      exact hborn
    · rename_i iterator p1 hk
      simp only [Prod.mk.injEq] at hk
      constructor
      · intro g hg
        simp only [List.mem_append, List.mem_singleton] at hg
        rcases hg with hg | hg
        · exact heach g hg
        · subst hg
          simp [PollerInv, Poller.pending, okBefore, cursorsOf, lastNext]
      · simp only [List.map_append, List.map_cons, List.map_nil, Poller.origin]
        rw [← hk.2, hborn]
  · rename_i hm
    split
    · exact ⟨heach, hborn⟩
    · exact ⟨heach, hborn⟩
  · exact ⟨heach, hborn⟩

theorem stepPoller_hist (i : Nat) (σ : Sys) (h : Hist σ) : Hist (stepPoller i σ) := by
  unfold stepPoller
  split
  · exact h
  · rename_i g hg
    have hmem : g ∈ σ.pollers := by
      obtain ⟨hi, hgi⟩ := List.getElem?_eq_some_iff.mp hg
      exact hgi ▸ List.getElem_mem hi
    obtain ⟨h1, h2, h3⟩ := h.each g hmem
    split
    · rename_i hpc
      simp only [hpc] at h3
      simp only [Poller.pending, hpc, List.append_nil] at h1
      split
      · exact h
      · rename_i resp script hs
        split
        · rename_i err
          obtain ⟨ha, hb⟩ := hist_set σ h i g
            { g with script := script, pc := .sending [] (.error err),
                     got := g.got ++ [.error err], asked := g.asked ++ [g.iter] } hg rfl
            (by
              refine ⟨?_, ?_, ?_⟩
              · simp [Poller.pending, okBefore_append_error, h1]
              · simp [cursorsOf_append_one _ _ _ h3.1, h2, h3.2]
              · simp)
          exact ⟨ha, hb⟩
        · rename_i records
          obtain ⟨ha, hb⟩ := hist_set σ h i g
            { g with script := script,
                     pc := .sending (records.Records.map (fun r => string r.Data))
                             (.ok records.NextShardIterator),
                     got := g.got ++ [.ok records], asked := g.asked ++ [g.iter] } hg rfl
            (by
              refine ⟨?_, ?_, ?_⟩
              · simp [Poller.pending, okBefore_append_ok _ _ h3.1, h1, payloads]
              · simp [cursorsOf_append_one _ _ _ h3.1, h2, h3.2]
              · simp [okBefore_append_ok _ _ h3.1, lastNext_append_ok _ _ _ h3.1, h3.1])
          exact ⟨ha, hb⟩
    · rename_i v pending result hpc
      simp only [Poller.pending, hpc] at h1
      have hnew : PollerInv { g with pc := .sending pending result, sent := g.sent ++ [v] } := by
        refine ⟨?_, h2, ?_⟩
        · simpa [Poller.pending] using h1
        · cases result with
          | error e => simp [hpc] at h3
          | ok next => simpa [hpc] using h3
      obtain ⟨ha, hb⟩ := hist_set σ h i g
        { g with pc := .sending pending result, sent := g.sent ++ [v] } hg rfl hnew
      split
      · exact ⟨ha, hb⟩
      · split
        · exact ⟨ha, hb⟩
        · exact h
    · exact ⟨h.each, by rw [fail_started]; exact h.born⟩
    · rename_i next hpc
      simp only [Poller.pending, hpc, List.append_nil] at h1
      simp only [hpc] at h3
      obtain ⟨ha, hb⟩ := hist_set σ h i g { g with iter := next, pc := .sleeping } hg rfl
        (by
          refine ⟨?_, h2, ?_⟩
          · simpa [Poller.pending] using h1
          · simpa using h3)
      exact ⟨ha, hb⟩
    · rename_i hpc
      simp only [Poller.pending, hpc, List.append_nil] at h1
      simp only [hpc] at h3
      obtain ⟨ha, hb⟩ := hist_set σ h i g { g with pc := .fetch } hg rfl
        (by
          refine ⟨?_, h2, ?_⟩
          · simpa [Poller.pending] using h1
          · simpa using h3)
      exact ⟨ha, hb⟩

theorem reach_hist (fl : Flags) (env : Env) (sched : List Nat) :
    Hist (run fl env sched (boot fl env)) := by
  have hstep : ∀ t σ, Hist σ → Hist (step fl env t σ) := by
    intro t σ h
    unfold step
    split
    · exact h
    · cases t with
      | zero => exact stepMain_hist fl env σ h
      | succ i => exact stepPoller_hist i σ h
  have hrun : ∀ (l : List Nat) σ, Hist σ → Hist (run fl env l σ) := by
    intro l
    induction l with
    | nil => intro σ h; exact h
    | cons t rest ih => intro σ h; exact ih _ (hstep t σ h)
  exact hrun sched _ (boot_hist fl env)

theorem iterCalls_append (a b : List Call) : iterCalls (a ++ b) = iterCalls a ++ iterCalls b := by
  simp [iterCalls]

theorem iterCalls_map_iteratorCall (fl : Flags) (stream : GoString) (start : Time)
    (l : List Shard) :
    iterCalls (l.map (iteratorCall fl stream start))
      = l.map (fun sh => getIteratorInput fl stream sh start) := by
  induction l with
  | nil => rfl
  | cons sh rest ih =>
    simp only [iterCalls, List.map_cons, List.filterMap_cons, iteratorCall] at ih ⊢
    rw [ih]

theorem prologue_calls (fl : Flags) (env : Env) (start : Time) (shards : List Shard) (p : Proc)
    (h : prologue fl env = .ok (start, shards, p)) :
    p.calls = [Call.describeStream fl.stream] ∧ p.started = []
      ∧ env.describeStream fl.stream = .ok shards
      ∧ resolveStart fl env {} = .ok (start, {}) := by
  unfold prologue getKinesisClient at h
  cases hs : env.newSession with
  | error e => simp [hs] at h
  | ok u =>
    rcases resolveStart_cases fl env {} with ⟨e, hg⟩ | ⟨t, hg⟩
    · simp [hs, hg] at h
    · simp only [hs, hg, describe] at h
      cases hd : env.describeStream fl.stream with
      | error e => simp [hd] at h
      | ok shards2 =>
        simp only [hd, Except.ok.injEq, Prod.mk.injEq] at h
        obtain ⟨h1, h2, h3⟩ := h
        subst h1 h2 h3
        exact ⟨rfl, rfl, rfl, hg⟩

theorem boot_loop (fl : Flags) (env : Env) (start : Time) (shards : List Shard) (p : Proc)
    (outs : List GetShardIteratorOutput) (h : prologue fl env = .ok (start, shards, p)) :
    LoopInv fl start shards outs (boot fl env) := by
  have hp := prologue_calls fl env start shards p h
  simp only [boot, h]
  refine ⟨rfl, 0, Nat.zero_le _, ?_, ?_, Or.inl ?_⟩
  · simp [hp.1, iterCalls]
  · simp [hp.2.1]
  · simp

theorem stepMain_loop (fl : Flags) (env : Env) (start : Time) (shards : List Shard)
    (outs : List GetShardIteratorOutput) (hlen : outs.length = shards.length)
    (hres : ∀ i (h1 : i < shards.length) (h2 : i < outs.length),
      env.getShardIterator i (getIteratorInput fl fl.stream shards[i] start) = .ok outs[i])
    (σ : Sys) (h : LoopInv fl start shards outs σ) :
    LoopInv fl start shards outs (stepMain fl env σ) := by
  obtain ⟨hstart, k, hk, hcalls, hstarted, hmain⟩ := h
  cases hm : σ.main with
  | recv =>
    have hno : k = shards.length ∧ ∀ n rest, σ.main ≠ .loop n rest := by
      rcases hmain with h1 | h1
      · rw [hm] at h1; exact absurd h1 (by simp)
      · exact h1
    have hstep : (stepMain fl env σ).main = σ.main ∨ ∃ v, (stepMain fl env σ).main = .print v := by
      unfold stepMain
      simp only [hm]
      split
      · left; exact hm
      · rename_i v buf _
        right; exact ⟨v, rfl⟩
    have hsame : (stepMain fl env σ).proc = σ.proc ∧ (stepMain fl env σ).start = σ.start := by
      unfold stepMain
      simp only [hm]
      split <;> exact ⟨rfl, rfl⟩
    refine ⟨hsame.2.trans hstart, k, hk, ?_, ?_, Or.inr ⟨hno.1, ?_⟩⟩
    · rw [hsame.1]; exact hcalls
    · rw [hsame.1]; exact hstarted
    · intro n rest
      rcases hstep with h2 | ⟨v, h2⟩
      · rw [h2]; exact hno.2 n rest
      · rw [h2]; simp
  | print record =>
    have hno : k = shards.length := by
      rcases hmain with h1 | h1
      · rw [hm] at h1; exact absurd h1 (by simp)
      · exact h1.1
    have hstep : stepMain fl env σ
        = { σ with proc := Println record σ.proc, emitted := σ.emitted ++ [record],
                   main := .recv } := by
      simp [stepMain, hm]
    rw [hstep]
    exact ⟨hstart, k, hk, hcalls, hstarted, Or.inr ⟨hno, by intro n rest; simp⟩⟩
  | loop n rest =>
    have hl : MainPc.loop n rest = .loop k (shards.drop k) := by
      rcases hmain with h1 | h1
      · rw [← hm]; exact h1
      · exact absurd hm (h1.2 n rest)
    simp only [MainPc.loop.injEq] at hl
    obtain ⟨hn, hrest⟩ := hl
    subst hn
    cases rest with
    | nil =>
      have hstep : stepMain fl env σ = { σ with main := .recv } := by
        simp [stepMain, hm]
      have hk2 : n = shards.length := by
        have := List.drop_eq_nil_iff.mp hrest.symm
        omega
      rw [hstep]
      exact ⟨hstart, n, hk, hcalls, hstarted, Or.inr ⟨hk2, by intro m r; simp⟩⟩
    | cons shard rest =>
      have hlt : n < shards.length := by
        by_contra hge
        have := List.drop_eq_nil_of_le (Nat.le_of_not_lt hge)
        rw [this] at hrest
        simp at hrest
      have hdrop := List.drop_eq_getElem_cons hlt
      rw [hdrop] at hrest
      simp only [List.cons.injEq] at hrest
      obtain ⟨hsh, hrest⟩ := hrest
      have hlt2 : n < outs.length := by omega
      have hans := hres n hlt hlt2
      rw [← hsh, ← hstart] at hans
      have hstep : stepMain fl env σ
          = { σ with
              proc := { σ.proc with
                calls := σ.proc.calls ++ [iteratorCall fl fl.stream σ.start shard],
                started := σ.proc.started ++ [{ shard := shard, iterator := outs[n] }] },
              pollers := σ.pollers ++
                [{ s := shard, iter := outs[n].ShardIterator, pc := .fetch,
                   script := env.getRecords n, first := outs[n].ShardIterator, got := [],
                   asked := [], sent := [] }],
              main := .loop (n + 1) rest } := by
        simp [stepMain, hm, getIterator, hans, iteratorCall]
      have htake : shards.take (n + 1) = shards.take n ++ [shards[n]] := by
        rw [List.take_succ, List.getElem?_eq_getElem hlt]; rfl
      have htake2 : outs.take (n + 1) = outs.take n ++ [outs[n]] := by
        rw [List.take_succ, List.getElem?_eq_getElem hlt2]; rfl
      rw [hstep]
      refine ⟨hstart, n + 1, hlt, ?_, ?_, Or.inl ?_⟩
      · rw [htake]
        simp only [iterCalls_append, hcalls, List.map_append, List.map_cons, List.map_nil]
        rw [hsh, hstart]
        rfl
      · rw [htake, htake2, List.zipWith_append]
        · simp only [hstarted, hsh, List.zipWith_cons_cons, List.zipWith_nil_left]
        · rw [List.length_take, List.length_take, hlen]
      · rw [hrest]

theorem stepPoller_loop (fl : Flags) (start : Time) (shards : List Shard)
    (outs : List GetShardIteratorOutput) (i : Nat) (σ : Sys)
    (h : LoopInv fl start shards outs σ) :
    LoopInv fl start shards outs (stepPoller i σ) := by
  obtain ⟨hstart, k, hk, hcalls, hstarted, hmain⟩ := h
  unfold stepPoller
  split
  · exact ⟨hstart, k, hk, hcalls, hstarted, hmain⟩
  · rename_i g hg
    split
    · split
      · exact ⟨hstart, k, hk, hcalls, hstarted, hmain⟩
      · split
        · refine ⟨hstart, k, hk, ?_, hstarted, hmain⟩
          simpa [iterCalls_append, iterCalls] using hcalls
        · refine ⟨hstart, k, hk, ?_, hstarted, hmain⟩
          simpa [iterCalls_append, iterCalls] using hcalls
    · split
      · exact ⟨hstart, k, hk, hcalls, hstarted, hmain⟩
      · split
        · rename_i hm _
          refine ⟨hstart, k, hk, hcalls, hstarted, Or.inr ?_⟩
          rcases hmain with h1 | h1
          · rw [hm] at h1; exact absurd h1 (by simp)
          · exact ⟨h1.1, by intro n rest; simp⟩
        · exact ⟨hstart, k, hk, hcalls, hstarted, hmain⟩
    · exact ⟨hstart, k, hk, hcalls, hstarted, hmain⟩
    · exact ⟨hstart, k, hk, hcalls, hstarted, hmain⟩
    · exact ⟨hstart, k, hk, hcalls, hstarted, hmain⟩

theorem reach_loop (fl : Flags) (env : Env) (start : Time) (shards : List Shard) (p : Proc)
    (outs : List GetShardIteratorOutput) (hp : prologue fl env = .ok (start, shards, p))
    (hlen : outs.length = shards.length)
    (hres : ∀ i (h1 : i < shards.length) (h2 : i < outs.length),
      env.getShardIterator i (getIteratorInput fl fl.stream shards[i] start) = .ok outs[i])
    (sched : List Nat) :
    LoopInv fl start shards outs (run fl env sched (boot fl env)) := by
  have hstep : ∀ t σ, LoopInv fl start shards outs σ →
      LoopInv fl start shards outs (step fl env t σ) := by
    intro t σ h
    unfold step
    split
    · exact h
    · cases t with
      | zero => exact stepMain_loop fl env start shards outs hlen hres σ h
      | succ i => exact stepPoller_loop fl start shards outs i σ h
  have hrun : ∀ (l : List Nat) σ, LoopInv fl start shards outs σ →
      LoopInv fl start shards outs (run fl env l σ) := by
    intro l
    induction l with
    | nil => intro σ h; exact h
    | cons t rest ih => intro σ h; exact ih _ (hstep t σ h)
  exact hrun sched _ (boot_loop fl env start shards p outs hp)

theorem step_exited (fl : Flags) (env : Env) (t : Nat) (σ : Sys) (h : σ.proc.exit = some 1) :
    step fl env t σ = σ := by
  simp [step, h]

theorem run_exited (fl : Flags) (env : Env) (sched : List Nat) (σ : Sys)
    (h : σ.proc.exit = some 1) : run fl env sched σ = σ := by
  induction sched with
  | nil => rfl
  | cons t rest ih =>
    simp only [run, List.foldl_cons] at ih ⊢
    rw [step_exited fl env t σ h]
    exact ih

theorem run_recv_idle (fl : Flags) (env : Env) (k : Nat) (σ : Sys)
    (hm : σ.main = .recv) (hb : σ.records.buf = []) :
    run fl env (List.replicate k 0) σ = σ := by
  induction k with
  | zero => rfl
  | succ k ih =>
    have hstep : step fl env 0 σ = σ := by
      unfold step
      split
      · rfl
      · simp [stepMain, hm, hb]
    simp only [run, List.replicate_succ, List.foldl_cons] at ih ⊢
    rw [hstep]
    exact ih

theorem run_main_alone (fl : Flags) (env : Env) (rest : List Shard) (n k : Nat) (σ : Sys)
    (hm : σ.main = .loop n rest) (hb : σ.records.buf = []) (he : σ.proc.exit = none) :
    (run fl env (List.replicate (rest.length + k) 0) σ).proc
      = outcome (shardLoop fl env fl.stream σ.start n rest σ.proc) := by
  induction rest generalizing n σ with
  | nil =>
    simp only [List.length_nil, Nat.zero_add, shardLoop, outcome]
    cases k with
    | zero => rfl
    | succ k =>
      have hstep : step fl env 0 σ = { σ with main := .recv } := by
        simp [step, he, stepMain, hm]
      simp only [run, List.replicate_succ, List.foldl_cons, hstep]
      have := run_recv_idle fl env k { σ with main := .recv } rfl hb
      simp only [run] at this
      rw [this]
  | cons sh rest ih =>
    have hlen : (sh :: rest).length + k = (rest.length + k) + 1 := by
      simp only [List.length_cons]; omega
    rw [hlen]
    simp only [run, List.replicate_succ, List.foldl_cons, shardLoop]
    cases hk : env.getShardIterator n (getIteratorInput fl fl.stream sh σ.start) with
    | error e =>
      rw [shardIteration_error _ _ _ _ _ _ _ _ hk]
      have hstep : step fl env 0 σ
          = { σ with proc := (fail (iteratorFailMsg sh e)
                ({ σ.proc with
                    calls := σ.proc.calls ++ [iteratorCall fl fl.stream σ.start sh] })) } := by
        simp [step, he, stepMain, hm, getIterator, hk, iteratorCall]
      rw [hstep]
      have := run_exited fl env (List.replicate (rest.length + k) 0)
        { σ with proc := (fail (iteratorFailMsg sh e)
            ({ σ.proc with
                calls := σ.proc.calls ++ [iteratorCall fl fl.stream σ.start sh] })) } rfl
      simp only [run] at this
      rw [this]
      rfl
    | ok out =>
      rw [shardIteration_ok _ _ _ _ _ _ _ _ hk]
      have hstep : step fl env 0 σ
          = { σ with
              proc := { σ.proc with
                calls := σ.proc.calls ++ [iteratorCall fl fl.stream σ.start sh],
                started := σ.proc.started ++ [{ shard := sh, iterator := out }] },
              pollers := σ.pollers ++
                [{ s := sh, iter := out.ShardIterator, pc := .fetch, script := env.getRecords n,
                   first := out.ShardIterator, got := [], asked := [], sent := [] }],
              main := .loop (n + 1) rest } := by
        simp [step, he, stepMain, hm, getIterator, hk, iteratorCall]
      rw [hstep]
      have := ih (n + 1) { σ with
              proc := { σ.proc with
                calls := σ.proc.calls ++ [iteratorCall fl fl.stream σ.start sh],
                started := σ.proc.started ++ [{ shard := sh, iterator := out }] },
              pollers := σ.pollers ++
                [{ s := sh, iter := out.ShardIterator, pc := .fetch, script := env.getRecords n,
                   first := out.ShardIterator, got := [], asked := [], sent := [] }],
              main := .loop (n + 1) rest } rfl hb he
      simp only [run] at this
      exact this

/-- The two layers agree on the main goroutine: when only the main goroutine is
scheduled, for at least as many steps as there are shards, the process ends in the
state that `setup` computes. -/
theorem run_main_alone_setup (fl : Flags) (env : Env) (start : Time) (shards : List Shard)
    (p : Proc) (h : prologue fl env = .ok (start, shards, p)) (k : Nat) :
    (run fl env (List.replicate (shards.length + k) 0) (boot fl env)).proc
      = outcome (setup fl env) := by
  have hp := ((prologue_stdout fl env).2 start shards p h).2
  have hboot : boot fl env
      = { proc := p, start := start, records := makeChan 0, main := .loop 0 shards,
          pollers := [], emitted := [], returned := [] } := by
    simp [boot, h]
  have hsetup : setup fl env = shardLoop fl env fl.stream start 0 shards p := by
    simp [setup, h]
  rw [hboot, hsetup]
  exact run_main_alone fl env shards 0 k _ rfl rfl hp

theorem quiescent_main_recv (fl : Flags) (env : Env) (σ : Sys) (he : σ.proc.exit = none)
    (hq : step fl env 0 σ = σ) : σ.main = .recv := by
  have hs : stepMain fl env σ = σ := by
    simpa [step, he] using hq
  unfold stepMain at hs
  split at hs
  · rename_i n hm
    have := congrArg Sys.main hs
    simp only at this
    exact this.symm
  · rename_i n shard rest hm
    split at hs
    · have := congrArg (fun τ => τ.proc.exit) hs
      simp only [fail_exit, he] at this
      exact absurd this (by simp)
    · have := congrArg Sys.main hs
      simp only [hm, MainPc.loop.injEq] at this
      omega
  · rename_i hm
    exact hm
  · rename_i record hm
    have := congrArg Sys.main hs
    simp only at this
    exact this.symm

theorem quiescent_inflight (fl : Flags) (env : Env) (σ : Sys) (hinv : Inv σ)
    (he : σ.proc.exit = none) (hq : ∀ t, step fl env t σ = σ) : inflight σ = [] := by
  have hm := quiescent_main_recv fl env σ he (hq 0)
  have hpend : ∀ g ∈ σ.pollers, g.pending = [] := by
    intro g hg
    obtain ⟨i, hi, hgi⟩ := List.mem_iff_getElem.mp hg
    have hget : σ.pollers[i]? = some g := by
      rw [List.getElem?_eq_getElem hi, hgi]
    cases hpc : g.pc with
    | fetch => simp [Poller.pending, hpc]
    | sleeping => simp [Poller.pending, hpc]
    | sending pend res =>
      cases pend with
      | nil => simp [Poller.pending, hpc]
      | cons v pend =>
        exfalso
        have hs := hq (i + 1)
        have hsb : σ.records.sendBuffered v = none := by
          simp [Chan.sendBuffered, hinv.cap]
        simp only [step, he, Option.isSome_none, Bool.false_eq_true, ↓reduceIte, stepPoller,
          hget, hpc, hsb, hm, hinv.buf] at hs
        have := congrArg Sys.main hs
        simp [hm] at this
  simp only [inflight, hinv.buf, hm, MainPc.held, List.append_nil]
  exact List.flatMap_eq_nil_iff.mpr hpend

/-! ## The claims -/

/-- C1: for one shard's goroutine and every finite sequence of fetch results, the
payloads written to the channel are the concatenation, in fetch order, of the batches
of the successful fetches that precede the first failing fetch, each batch in the
order the service returned it; a failing fetch writes no payload; no fetch is made
after a failing one (the number of `GetRecords` calls is the number of those successes
plus the failing fetch, and results scripted after a failure change nothing); batches
`[r1, r2]` then `[r3]` are written as `r1, r2, r3`.  The same holds of every poller
in every interleaving of the running program: what it has sent, followed by what it
still has to send of its current batch, is that concatenation for the results it has
got so far, which is what the sequential goroutine writes on those results. -/
theorem C1_poller_writes_batches_in_order (g : Started) (script : List FetchResult) (p : Proc) :
    (goroutine g script p).sink = p.sink ++ (okBefore script).flatMap payloads
    ∧ (∀ (e : GoError) (it : Option GoString) (q : Proc),
        (fetchRecords (.error e) it q).2.sink = q.sink)
    ∧ fetchCount (goroutine g script p).calls
        = fetchCount p.calls + min script.length ((okBefore script).length + 1)
    ∧ (∀ (e : GoError) (rest : List FetchResult),
        goroutine g (script ++ .error e :: rest) p = goroutine g (script ++ [.error e]) p)
    ∧ (∀ (r1 r2 r3 : Record) (c1 c2 : Option GoString),
        (goroutine g [.ok ⟨[r1, r2], c1⟩, .ok ⟨[r3], c2⟩] p).sink
          = p.sink ++ [string r1.Data, string r2.Data, string r3.Data])
    ∧ (∀ (fl : Flags) (env : Env) (sched : List Nat),
        ∀ x ∈ (run fl env sched (boot fl env)).pollers,
          x.sent ++ x.pending = (okBefore x.got).flatMap payloads
          ∧ (goroutine x.origin x.got {}).sink = x.sent ++ x.pending) := by
  refine ⟨pollLoop_sink _ _ _ _, ?_, ?_, ?_, ?_, ?_⟩
  · intro e it q
    simp [fetchRecords_error]
  · simp only [goroutine, pollLoop_calls, fetchCount_append, fetchCount_getRecords,
      cursorsOf_length]
  · intro e rest
    exact pollLoop_append_after_error _ _ _ _ _ _
  · intro r1 r2 r3 c1 c2
    simp [goroutine, pollLoop_sink, okBefore, payloads]
  · intro fl env sched x hx
    have h1 := ((reach_hist fl env sched).each x hx).1
    refine ⟨h1, ?_⟩
    rw [h1]
    simp [goroutine, pollLoop_sink]

/-- C2: the goroutine of a shard is started with the output of that shard's
`GetShardIterator` call; the cursor of its first `GetRecords` call is the
`ShardIterator` of that output; the cursor of call `k+2` is the `NextShardIterator`
that call `k+1` returned (which was a success); `fetchRecords` returns the service's
`NextShardIterator` unchanged; and the calls go on as long as results arrive and none
has failed.  In every interleaving of the running program the pollers are, in order,
the goroutines started, and the cursors a poller has passed to `GetRecords` are those
the sequential goroutine passes on the results the poller has got so far. -/
theorem C2_cursor_chain (fl : Flags) (env : Env) (stream : GoString) (start : Time) (n : Nat)
    (shard : Shard) (p : Proc) (script : List FetchResult) (q : Proc) :
    (∀ p1, shardIteration fl env stream start n shard p = .ok p1 →
      ∃ out, env.getShardIterator n (getIteratorInput fl stream shard start) = .ok out
        ∧ p1.started = p.started ++ [{ shard := shard, iterator := out }])
    ∧ (∀ (r : GetRecordsOutput) (it : Option GoString) (w : Proc),
        (fetchRecords (.ok r) it w).1 = .ok r.NextShardIterator)
    ∧ (∀ g : Started, ∃ reqs : List (Option GoString),
        (goroutine g script q).calls
          = q.calls ++ reqs.map (fun c => Call.getRecords { ShardIterator := c })
        ∧ reqs.length = min script.length ((okBefore script).length + 1)
        ∧ (script ≠ [] → reqs[0]? = some g.iterator.ShardIterator)
        ∧ (∀ k c, reqs[k + 1]? = some c →
            ∃ r, script[k]? = some (.ok r) ∧ c = r.NextShardIterator))
    ∧ (∀ sched : List Nat,
        (run fl env sched (boot fl env)).pollers.map Poller.origin
          = (run fl env sched (boot fl env)).proc.started
        ∧ ∀ x ∈ (run fl env sched (boot fl env)).pollers,
            (goroutine x.origin x.got {}).calls
              = x.asked.map (fun c => Call.getRecords { ShardIterator := c })) := by
  refine ⟨?_, ?_, ?_, ?_⟩
  rotate_left 3
  · intro sched
    refine ⟨(reach_hist fl env sched).born, ?_⟩
    intro x hx
    have h2 := ((reach_hist fl env sched).each x hx).2.1
    rw [h2]
    simp [goroutine, pollLoop_calls, Poller.origin]
  · intro p1 h
    simp only [shardIteration, getIterator] at h
    cases hk : env.getShardIterator n (getIteratorInput fl stream shard start) with
    | error e => simp [hk] at h
    | ok out =>
      refine ⟨out, rfl, ?_⟩
      simp [hk] at h
      subst h
      rfl
  · intro r it w
    simp [fetchRecords_ok]
  · intro g
    refine ⟨cursorsOf g.iterator.ShardIterator script, ?_, cursorsOf_length _ _, ?_, ?_⟩
    · simp [goroutine, pollLoop_calls]
    · intro hne
      cases script with
      | nil => exact absurd rfl hne
      | cons resp rest => cases resp <;> simp [cursorsOf]
    · intro k c h
      exact cursorsOf_succ _ _ _ _ h

/-- Witness of C2: a shard whose iterator resolves to `c0` and whose fetches return
next cursors `c1` and then nothing. -/
theorem C2_cursor_chain_witness :
    (goroutine { shard := ⟨lit "s"⟩, iterator := ⟨some (lit "c0")⟩ }
        [.ok ⟨[], some (lit "c1")⟩, .ok ⟨[], none⟩, .ok ⟨[], none⟩] {}).calls
      = [Call.getRecords ⟨some (lit "c0")⟩, Call.getRecords ⟨some (lit "c1")⟩,
          Call.getRecords ⟨none⟩]
    ∧ ∃ reqs : List (Option GoString),
        (goroutine { shard := ⟨lit "s"⟩, iterator := ⟨some (lit "c0")⟩ }
            [.ok ⟨[], some (lit "c1")⟩, .ok ⟨[], none⟩, .ok ⟨[], none⟩] {}).calls
          = ([] : List Call) ++ reqs.map (fun c => Call.getRecords { ShardIterator := c })
        ∧ reqs.length = 3 :=
  ⟨by decide,
    by
      obtain ⟨reqs, h1, h2, _⟩ :=
        (C2_cursor_chain Flags.default ⟨.ok (), fun _ => .ok ⟨0⟩, fun _ => .ok [],
            fun _ _ => .ok ⟨none⟩, fun _ => []⟩ [] Time.zero 0 ⟨lit "s"⟩ {}
          [.ok ⟨[], some (lit "c1")⟩, .ok ⟨[], none⟩, .ok ⟨[], none⟩] {}).2.2.1
          { shard := ⟨lit "s"⟩, iterator := ⟨some (lit "c0")⟩ }
      exact ⟨reqs, h1, by simpa [okBefore] using h2⟩⟩

/-- C4: the start-time gate fails if and only if the iterator type is `AT_TIMESTAMP`,
`-start-time` is not empty and `time.Parse(time.RFC3339, ·)` rejects it; the failure is
`fail` with the parse message; in that case the run of `main` ends in `os.Exit(1)`
with no service operation called and no goroutine started (and, the session having
been created, with the parse message on standard error); for every other iterator
type the gate passes whatever `-start-time` is, the run being the same as with any
other `-start-time` string; and, the session having been created, the run of `main`
ends in `fail` with the parse message if and only if that same condition holds. -/
theorem C4_start_time_gate (fl : Flags) (env : Env) (p : Proc) :
    ((∃ q, resolveStart fl env p = .error q)
      ↔ (fl.iteratorType = lit "AT_TIMESTAMP" ∧ fl.startTime ≠ []
          ∧ ∃ e, env.parseRFC3339 fl.startTime = .error e))
    ∧ (∀ e, fl.iteratorType = lit "AT_TIMESTAMP" → fl.startTime ≠ [] →
        env.parseRFC3339 fl.startTime = .error e →
        resolveStart fl env p = .error (fail (parseFailMsg e) p)
        ∧ ∃ q, setup fl env = .error q ∧ q.calls = [] ∧ q.started = [] ∧ q.exit = some 1
            ∧ (env.newSession = .ok () → q.stderr = parseFailMsg e ++ [newline]))
    ∧ (fl.iteratorType ≠ lit "AT_TIMESTAMP" → ∀ s : GoString,
        resolveStart { fl with startTime := s } env p = .ok (Time.zero, p)
        ∧ setup { fl with startTime := s } env = setup fl env)
    ∧ (env.newSession = .ok () →
        ((∃ e, setup fl env = .error (fail (parseFailMsg e) {}))
          ↔ (fl.iteratorType = lit "AT_TIMESTAMP" ∧ fl.startTime ≠ []
              ∧ ∃ e, env.parseRFC3339 fl.startTime = .error e))) := by
  refine ⟨?_, ?_, ?_, ?_⟩
  · constructor
    · rintro ⟨q, hq⟩
      unfold resolveStart at hq
      split at hq
      · rename_i hc
        refine ⟨hc.1, hc.2, ?_⟩
        cases hp : env.parseRFC3339 fl.startTime with
        | error e => exact ⟨e, rfl⟩
        | ok t => simp [hp] at hq
      · simp at hq
    · rintro ⟨h1, h2, e, he⟩
      exact ⟨fail (parseFailMsg e) p, by simp [resolveStart, h1, h2, he]⟩
  · intro e h1 h2 he
    refine ⟨by simp [resolveStart, h1, h2, he], ?_⟩
    cases hs : env.newSession with
    | error e2 =>
      exact ⟨fail (sessionFailMsg e2) {}, by simp [setup, prologue, getKinesisClient, hs], rfl, rfl, rfl,
        by simp⟩
    | ok u =>
      exact ⟨fail (parseFailMsg e) {},
        by simp [setup, prologue, getKinesisClient, hs, resolveStart, h1, h2, he], rfl, rfl, rfl,
        by intro _; rfl⟩
  · intro hne s
    have h1 : resolveStart { fl with startTime := s } env p = .ok (Time.zero, p) := by
      simp [resolveStart, hne]
    refine ⟨h1, ?_⟩
    have h2 : ∀ w : Proc, resolveStart { fl with startTime := s } env w = resolveStart fl env w := by
      intro w
      simp [resolveStart, hne]
    simp only [setup, prologue, h2, describe, shardLoop_startTime]
  · intro hs
    constructor
    · rintro ⟨e, he⟩
      rcases resolveStart_cases fl env {} with ⟨e2, hg⟩ | ⟨t, hg⟩
      · unfold resolveStart at hg
        split at hg
        · rename_i hc
          refine ⟨hc.1, hc.2, ?_⟩
          cases hp : env.parseRFC3339 fl.startTime with
          | error e3 => exact ⟨e3, rfl⟩
          | ok t => simp [hp] at hg
        · simp at hg
      · exfalso
        cases hd : env.describeStream fl.stream with
        | error e3 =>
          rw [setup_describe_error fl env () t e3 hs hg hd] at he
          have := congrArg (fun r => (outcome r).calls) he
          simp [outcome, os_Exit, fail_calls] at this
        | ok shards =>
          rw [setup_describe_ok fl env () t shards hs hg hd] at he
          obtain ⟨l, hl⟩ := shardLoop_calls_grow fl env fl.stream t shards 0
            { calls := [Call.describeStream fl.stream] }
          rw [he] at hl
          simp [outcome, fail_calls] at hl
    · rintro ⟨h1, h2, e, he⟩
      exact ⟨e, by simp [setup, prologue, getKinesisClient, hs, resolveStart, h1, h2, he]⟩

/-- Witness of C4: with `-iterator-type AT_TIMESTAMP -start-time x`, `x` rejected by
the parser, the run exits with status 1 before any service operation. -/
theorem C4_start_time_gate_witness :
    ∃ q, setup { Flags.default with iteratorType := lit "AT_TIMESTAMP", startTime := lit "x" }
          ⟨.ok (), fun _ => .error ⟨lit "bad"⟩, fun _ => .ok [], fun _ _ => .ok ⟨none⟩,
            fun _ => []⟩ = .error q
      ∧ q.calls = [] ∧ q.started = [] ∧ q.exit = some 1
      ∧ ((Except.ok () : Except GoError Unit) = .ok () →
          q.stderr = parseFailMsg ⟨lit "bad"⟩ ++ [newline]) :=
  ((C4_start_time_gate
      { Flags.default with iteratorType := lit "AT_TIMESTAMP", startTime := lit "x" }
      ⟨.ok (), fun _ => .error ⟨lit "bad"⟩, fun _ => .ok [], fun _ _ => .ok ⟨none⟩,
        fun _ => []⟩ {}).2.1 ⟨lit "bad"⟩ rfl (by decide) rfl).2

/-- C5: the `Timestamp` of every `GetShardIterator` request is the value the start-time
gate left in `start`: with `AT_TIMESTAMP` and a `-start-time` that parses, the parsed
instant; with `AT_TIMESTAMP` and no `-start-time`, the zero instant, the gate passing;
with any other iterator type, the zero instant too, and the whole run (so every
request) is the same whatever `-start-time` string is given. -/
theorem C5_request_timestamp (fl : Flags) (env : Env) :
    (∀ (k : GetShardIteratorInput → Except GoError GetShardIteratorOutput) (stream : GoString)
        (shard : Shard) (t : Time) (p : Proc),
        (getIterator fl k stream shard t p).2.calls
          = p.calls ++ [Call.getShardIterator
              { ShardId := shard.ShardId, ShardIteratorType := fl.iteratorType,
                StreamName := stream, Timestamp := t }])
    ∧ (∀ t, fl.iteratorType = lit "AT_TIMESTAMP" → fl.startTime ≠ [] →
        env.parseRFC3339 fl.startTime = .ok t →
        resolveStart fl env {} = .ok (t, {})
        ∧ ∀ input, Call.getShardIterator input ∈ (outcome (setup fl env)).calls →
            input.Timestamp = t)
    ∧ (fl.iteratorType = lit "AT_TIMESTAMP" → fl.startTime = [] →
        resolveStart fl env {} = .ok (Time.zero, {})
        ∧ ∀ input, Call.getShardIterator input ∈ (outcome (setup fl env)).calls →
            input.Timestamp = Time.zero)
    ∧ (fl.iteratorType ≠ lit "AT_TIMESTAMP" → ∀ s : GoString,
        setup { fl with startTime := s } env = setup fl env
        ∧ ∀ input, Call.getShardIterator input
              ∈ (outcome (setup { fl with startTime := s } env)).calls →
            input.Timestamp = Time.zero) := by
  refine ⟨?_, ?_, ?_, ?_⟩
  · intro k stream shard t p
    rfl
  · intro t h1 h2 hp
    have hg : resolveStart fl env {} = .ok (t, {}) := by simp [resolveStart, h1, h2, hp]
    exact ⟨hg, fun input h => setup_timestamp fl env t hg input h⟩
  · intro h1 h2
    have hg : resolveStart fl env {} = .ok (Time.zero, {}) := by simp [resolveStart, h2]
    exact ⟨hg, fun input h => setup_timestamp fl env Time.zero hg input h⟩
  · intro hne s
    have hg : resolveStart { fl with startTime := s } env {} = .ok (Time.zero, {}) := by
      simp [resolveStart, hne]
    have h2 : ∀ w : Proc, resolveStart { fl with startTime := s } env w = resolveStart fl env w := by
      intro w
      simp [resolveStart, hne]
    refine ⟨?_, fun input h => setup_timestamp _ env Time.zero hg input h⟩
    simp only [setup, prologue, h2, describe, shardLoop_startTime]

/-- Witness of C5: `-iterator-type AT_TIMESTAMP -start-time t` with `t` parsed as
instant 7 and one shard: the one request carries instant 7. -/
theorem C5_request_timestamp_witness :
    (outcome (setup { Flags.default with iteratorType := lit "AT_TIMESTAMP", startTime := lit "t" }
        ⟨.ok (), fun _ => .ok ⟨7⟩, fun _ => .ok [⟨lit "s0"⟩], fun _ _ => .ok ⟨none⟩,
          fun _ => []⟩)).calls
      = [Call.describeStream (lit "your-stream"),
          Call.getShardIterator ⟨lit "s0", lit "AT_TIMESTAMP", lit "your-stream", ⟨7⟩⟩]
    ∧ ∀ input, Call.getShardIterator input
          ∈ (outcome (setup
              { Flags.default with iteratorType := lit "AT_TIMESTAMP", startTime := lit "t" }
              ⟨.ok (), fun _ => .ok ⟨7⟩, fun _ => .ok [⟨lit "s0"⟩], fun _ _ => .ok ⟨none⟩,
                fun _ => []⟩)).calls →
        input.Timestamp = ⟨7⟩ :=
  ⟨by decide,
    ((C5_request_timestamp
      { Flags.default with iteratorType := lit "AT_TIMESTAMP", startTime := lit "t" }
      ⟨.ok (), fun _ => .ok ⟨7⟩, fun _ => .ok [⟨lit "s0"⟩], fun _ _ => .ok ⟨none⟩,
        fun _ => []⟩).2.1 ⟨7⟩ rfl (by decide) rfl).2⟩

/-- The main goroutine run alone: when the session is created, the start-time gate
passes with `start`, discovery returns `shards` and every resolution succeeds, it
reaches the loop of line 64 with one `GetShardIterator` call per shard and one
goroutine started per shard. -/
theorem setup_all_resolved (fl : Flags) (env : Env) (start : Time) (shards : List Shard)
    (outs : List GetShardIteratorOutput)
    (hs : env.newSession = .ok ())
    (hg : resolveStart fl env {} = .ok (start, {}))
    (hd : env.describeStream fl.stream = .ok shards)
    (hlen : outs.length = shards.length)
    (hres : ∀ i (h1 : i < shards.length) (h2 : i < outs.length),
      env.getShardIterator i (getIteratorInput fl fl.stream shards[i] start) = .ok outs[i]) :
    setup fl env
      = .ok { calls := Call.describeStream fl.stream
                :: shards.map (iteratorCall fl fl.stream start),
              started := List.zipWith Started.mk shards outs } := by
  have hloop := shardLoop_ok fl env fl.stream start shards outs 0
    { calls := [Call.describeStream fl.stream] } hlen
    (by intro i h1 h2; simpa using hres i h1 h2)
  rw [setup_describe_ok fl env () start shards hs hg hd, hloop]
  simp

/-- C6 as stated fails: discovery returns the two shards `A` and `B` and every cursor
resolution succeeds, yet the goroutine started for `A` fails its first fetch and
exits the process before the main goroutine resolves `B`: one `GetShardIterator` call
has been made and one goroutine started, not two. -/
theorem C6_counterexample_poller_ends_loop_early :
    envAB.describeStream Flags.default.stream = .ok [⟨lit "A"⟩, ⟨lit "B"⟩]
    ∧ (∀ n input, ∃ out, envAB.getShardIterator n input = .ok out)
    ∧ (run Flags.default envAB [0, 1, 1] (boot Flags.default envAB)).proc.exit = some 1
    ∧ (run Flags.default envAB [0, 1, 1] (boot Flags.default envAB)).proc.started
        = [{ shard := ⟨lit "A"⟩, iterator := ⟨some [0]⟩ }]
    ∧ iterCalls (run Flags.default envAB [0, 1, 1] (boot Flags.default envAB)).proc.calls
        = [getIteratorInput Flags.default Flags.default.stream ⟨lit "A"⟩ Time.zero]
    ∧ (run Flags.default envAB [0, 1, 1] (boot Flags.default envAB)).pollers.length = 1 :=
  ⟨rfl, fun _ _ => ⟨_, rfl⟩, by decide, by decide, by decide, by decide⟩

/-- C6 (amended): when the session is created, the start-time gate passes with `start`,
discovery returns the shards `shards` and the `i`-th `GetShardIterator` call succeeds
with `outs[i]` for every `i`, then under every interleaving there is a `k`, at most
the number of shards, such that the `GetShardIterator` calls made are exactly one per
shard for the first `k` shards in discovery order, each with that shard's ID, the
stream name and the iterator type of the flags, and the goroutines started are exactly
those of the first `k` shards, the `i`-th for shard `i` with the output resolved for
shard `i`; the main goroutine is in its loop with `k` shards done, or past it with all
of them done, so that once it has left the loop the calls and the goroutines are
exactly one per shard.  The main goroutine scheduled alone gets there: it makes one
call and starts one goroutine per shard without exiting. -/
theorem C6_pollers_follow_resolutions (fl : Flags) (env : Env) (start : Time)
    (shards : List Shard) (outs : List GetShardIteratorOutput)
    (hs : env.newSession = .ok ())
    (hg : resolveStart fl env {} = .ok (start, {}))
    (hd : env.describeStream fl.stream = .ok shards)
    (hlen : outs.length = shards.length)
    (hres : ∀ i (h1 : i < shards.length) (h2 : i < outs.length),
      env.getShardIterator i (getIteratorInput fl fl.stream shards[i] start) = .ok outs[i]) :
    (∀ sched : List Nat, ∃ k, k ≤ shards.length
      ∧ iterCalls (run fl env sched (boot fl env)).proc.calls
          = (shards.take k).map (fun sh =>
              { ShardId := sh.ShardId, ShardIteratorType := fl.iteratorType,
                StreamName := fl.stream, Timestamp := start })
      ∧ (run fl env sched (boot fl env)).proc.started
          = List.zipWith Started.mk (shards.take k) (outs.take k)
      ∧ (run fl env sched (boot fl env)).pollers.map Poller.origin
          = (run fl env sched (boot fl env)).proc.started
      ∧ (run fl env sched (boot fl env)).pollers.length = k
      ∧ ((run fl env sched (boot fl env)).main = .loop k (shards.drop k)
          ∨ (k = shards.length ∧ ∀ n rest, (run fl env sched (boot fl env)).main ≠ .loop n rest))
      ∧ ((∀ n rest, (run fl env sched (boot fl env)).main ≠ .loop n rest) →
          k = shards.length))
    ∧ (∀ j : Nat,
        (run fl env (List.replicate (shards.length + j) 0) (boot fl env)).proc.started
          = List.zipWith Started.mk shards outs
        ∧ iterCalls (run fl env (List.replicate (shards.length + j) 0) (boot fl env)).proc.calls
          = shards.map (fun sh =>
              { ShardId := sh.ShardId, ShardIteratorType := fl.iteratorType,
                StreamName := fl.stream, Timestamp := start })
        ∧ (run fl env (List.replicate (shards.length + j) 0) (boot fl env)).proc.exit = none) := by
  have hp : prologue fl env
      = .ok (start, shards, { calls := [Call.describeStream fl.stream] }) := by
    simp [prologue, getKinesisClient, hs, hg, describe, hd]
  constructor
  · intro sched
    obtain ⟨_, k, hk, hcalls, hstarted, hmain⟩ :=
      reach_loop fl env start shards _ outs hp hlen hres sched
    have hborn := (reach_hist fl env sched).born
    refine ⟨k, hk, hcalls, hstarted, hborn, ?_, hmain, ?_⟩
    · have hl := congrArg List.length hborn
      rw [hstarted] at hl
      simp only [List.length_map, List.length_zipWith, List.length_take, hlen] at hl
      omega
    · intro hno
      rcases hmain with h1 | h1
      · exact absurd h1 (hno _ _)
      · exact h1.1
  · intro j
    rw [run_main_alone_setup fl env start shards _ hp j,
      setup_all_resolved fl env start shards outs hs hg hd hlen hres]
    refine ⟨rfl, ?_, rfl⟩
    simp only [outcome]
    rw [← List.singleton_append, iterCalls_append, iterCalls_map_iteratorCall]
    rfl

/-- Witness of C6 (amended): two shards whose resolutions succeed.  The main goroutine
scheduled alone starts both goroutines; and after the schedule in which both pollers
have also fetched, the calls and goroutines are those of some `k` shards. -/
theorem C6_pollers_follow_resolutions_witness :
    ((run Flags.default envQuiet (List.replicate (2 + 0) 0) (boot Flags.default envQuiet)).proc.started
        = List.zipWith Started.mk [(⟨lit "A"⟩ : Shard), ⟨lit "B"⟩] [⟨some [0]⟩, ⟨some [1]⟩]
      ∧ iterCalls (run Flags.default envQuiet (List.replicate (2 + 0) 0)
            (boot Flags.default envQuiet)).proc.calls
        = [(⟨lit "A"⟩ : Shard), ⟨lit "B"⟩].map (fun sh =>
            { ShardId := sh.ShardId, ShardIteratorType := Flags.default.iteratorType,
              StreamName := Flags.default.stream, Timestamp := Time.zero })
      ∧ (run Flags.default envQuiet (List.replicate (2 + 0) 0)
            (boot Flags.default envQuiet)).proc.exit = none)
    ∧ (run Flags.default envQuiet [0, 0, 0, 1, 2] (boot Flags.default envQuiet)).pollers.length = 2 :=
  ⟨(C6_pollers_follow_resolutions Flags.default envQuiet Time.zero
      [⟨lit "A"⟩, ⟨lit "B"⟩] [⟨some [0]⟩, ⟨some [1]⟩] rfl (by rfl) rfl rfl
      (by
        intro i h1 h2
        match i, h1, h2 with
        | 0, _, _ => rfl
        | 1, _, _ => rfl)).2 0,
    by decide⟩

/-- C7 (amended): cursor resolution runs shard by shard on the main goroutine, and each
shard's goroutine is started right after its own resolution.  When the resolutions of
the shards before index `i` succeed and that of shard `i` fails, the main goroutine
exits with status 1 and the message of line 49 for shard `i`, having called
`GetShardIterator` for the shards up to `i` only, and having started goroutines for
exactly the `i` shards before `i`, each with its resolved output; none is started for
shard `i` or a later shard. -/
theorem C7_resolution_failure_after_earlier_pollers (fl : Flags) (env : Env) (start : Time)
    (shards : List Shard) (outs : List GetShardIteratorOutput) (i : Nat) (e : GoError)
    (hs : env.newSession = .ok ())
    (hg : resolveStart fl env {} = .ok (start, {}))
    (hd : env.describeStream fl.stream = .ok shards)
    (hi : i < shards.length) (hlen : outs.length = i)
    (hok : ∀ j (h1 : j < shards.length) (h2 : j < outs.length),
      env.getShardIterator j (getIteratorInput fl fl.stream shards[j] start) = .ok outs[j])
    (herr : env.getShardIterator i (getIteratorInput fl fl.stream shards[i] start) = .error e) :
    ∃ q, setup fl env = .error q
      ∧ q.exit = some 1
      ∧ q.stderr = iteratorFailMsg shards[i] e ++ [newline]
      ∧ q.calls = Call.describeStream fl.stream
          :: (shards.take (i + 1)).map (iteratorCall fl fl.stream start)
      ∧ q.started = List.zipWith Started.mk (shards.take i) outs
      ∧ q.started.length = i
      ∧ (∀ g ∈ q.started, g.shard ∈ shards.take i) := by
  have hloop := shardLoop_fails_at fl env fl.stream start shards outs i e
    { calls := [Call.describeStream fl.stream] } hi hlen hok herr
  have hlt : (shards.take i).length = i := by rw [List.length_take]; omega
  refine ⟨_, (setup_describe_ok fl env () start shards hs hg hd).trans hloop, rfl, ?_, ?_, ?_, ?_,
    ?_⟩
  · simp [fail_stderr]
  · simp [fail_calls]
  · simp [fail_started]
  · simp [fail_started, hlt, hlen]
  · intro g hgm
    simp only [fail_started, List.nil_append] at hgm
    rw [List.mem_iff_getElem] at hgm
    obtain ⟨k, hk, rfl⟩ := hgm
    simp only [List.getElem_zipWith]
    exact List.getElem_mem _

/-- Witness of C7 (amended): two shards, the second resolution fails; one goroutine
(that of the first shard) has been started when the process exits. -/
theorem C7_resolution_failure_after_earlier_pollers_witness :
    ∃ q, setup Flags.default
          ⟨.ok (), fun _ => .ok ⟨0⟩, fun _ => .ok [⟨lit "s0"⟩, ⟨lit "s1"⟩],
            fun n _ => if n = 1 then .error ⟨lit "no"⟩ else .ok ⟨some (lit "c0")⟩,
            fun _ => []⟩ = .error q
      ∧ q.exit = some 1
      ∧ q.started = [{ shard := ⟨lit "s0"⟩, iterator := ⟨some (lit "c0")⟩ }] := by
  obtain ⟨q, h1, h2, _, _, h5, _⟩ :=
    C7_resolution_failure_after_earlier_pollers Flags.default
      ⟨.ok (), fun _ => .ok ⟨0⟩, fun _ => .ok [⟨lit "s0"⟩, ⟨lit "s1"⟩],
        fun n _ => if n = 1 then .error ⟨lit "no"⟩ else .ok ⟨some (lit "c0")⟩, fun _ => []⟩
      Time.zero [⟨lit "s0"⟩, ⟨lit "s1"⟩] [⟨some (lit "c0")⟩] 1 ⟨lit "no"⟩
      rfl (by rfl) rfl (by decide) rfl
      (by
        intro j h1 h2
        match j, h1, h2 with
        | 0, _, _ => rfl)
      rfl
  exact ⟨q, h1, h2, h5⟩

/-- C8: every way the program ends is `os.Exit(1)` after a message on standard error.
A run of the main goroutine that ends before the loop of line 64 has exit status 1 and
a non-empty standard error; a start-time parse failure, a `DescribeStream` failure and
a `GetShardIterator` failure for any shard each end it so; a failing `GetRecords`
result in a goroutine's script ends the goroutine in exit status 1 with a non-empty
standard error; and neither `main`, whatever it receives, nor a goroutine ever sets
exit status 0: `main` that passes the set-up never exits on its own.  In the running
program, under every interleaving, the exit status is never 0, and the step of a
poller whose fetch has failed exits with status 1 after writing to standard error. -/
theorem C8_exit_code_one (fl : Flags) (env : Env) :
    (∀ q, setup fl env = .error q → q.exit = some 1 ∧ q.stderr ≠ [])
    ∧ (∀ e, fl.iteratorType = lit "AT_TIMESTAMP" → fl.startTime ≠ [] →
        env.parseRFC3339 fl.startTime = .error e →
        ∃ q, setup fl env = .error q ∧ q.exit = some 1 ∧ q.stderr ≠ [])
    ∧ (∀ e, env.describeStream fl.stream = .error e →
        ∃ q, setup fl env = .error q ∧ q.exit = some 1 ∧ q.stderr ≠ [])
    ∧ (∀ (start : Time) (shards : List Shard) (p : Proc) (i : Nat) (hi : i < shards.length) e,
        env.getShardIterator i (getIteratorInput fl fl.stream shards[i] start) = .error e →
        ∃ q, shardLoop fl env fl.stream start 0 shards p = .error q
          ∧ q.exit = some 1 ∧ q.stderr ≠ [])
    ∧ (∀ (g : Started) (script : List FetchResult) (p : Proc) e, .error e ∈ script →
        (goroutine g script p).exit = some 1 ∧ (goroutine g script p).stderr ≠ [])
    ∧ (∀ received, (main fl env received).exit ≠ some 0)
    ∧ (∀ received p, setup fl env = .ok p → (main fl env received).exit = none)
    ∧ (∀ (g : Started) (script : List FetchResult), (goroutine g script {}).exit ≠ some 0)
    ∧ (∀ sched : List Nat, (run fl env sched (boot fl env)).proc.exit ≠ some 0)
    ∧ (∀ (sched : List Nat) i g err,
        (run fl env sched (boot fl env)).proc.exit = none →
        (run fl env sched (boot fl env)).pollers[i]? = some g →
        g.pc = .sending [] (.error err) →
        (step fl env (i + 1) (run fl env sched (boot fl env))).proc.exit = some 1
        ∧ (step fl env (i + 1) (run fl env sched (boot fl env))).proc.stderr ≠ []) := by
  have hexit := setup_error_exit fl env
  refine ⟨hexit, ?_, ?_, ?_, ?_, ?_, ?_, ?_, ?_, ?_⟩
  · intro e h1 h2 he
    cases hs : env.newSession with
    | error e2 =>
      exact ⟨_, setup_session_error fl env e2 hs, hexit _ (setup_session_error fl env e2 hs)⟩
    | ok u =>
      have hg : resolveStart fl env {} = .error (fail (parseFailMsg e) {}) := by
        simp [resolveStart, h1, h2, he]
      exact ⟨_, setup_gate_error fl env u _ hs hg, hexit _ (setup_gate_error fl env u _ hs hg)⟩
  · intro e hd
    cases hs : env.newSession with
    | error e2 =>
      exact ⟨_, setup_session_error fl env e2 hs, hexit _ (setup_session_error fl env e2 hs)⟩
    | ok u =>
      rcases resolveStart_cases fl env {} with ⟨e3, hg⟩ | ⟨t, hg⟩
      · exact ⟨_, setup_gate_error fl env u _ hs hg, hexit _ (setup_gate_error fl env u _ hs hg)⟩
      · exact ⟨_, setup_describe_error fl env u t e hs hg hd,
          hexit _ (setup_describe_error fl env u t e hs hg hd)⟩
  · intro start shards p i hi e herr
    obtain ⟨q, hq⟩ := shardLoop_fails_if_any fl env fl.stream start shards 0 p i hi e
      (by simpa using herr)
    exact ⟨q, hq, shardLoop_error_exit _ _ _ _ _ _ _ _ hq⟩
  · intro g script p e he
    exact pollLoop_fails _ _ _ _ e he
  · intro received
    unfold main
    cases h : setup fl env with
    | error q => simp [(hexit q h).1]
    | ok p =>
      simp only [consume_stdout]
      simp [(setup_ok_quiet fl env p h).1]
  · intro received p h
    unfold main
    simp only [h, consume_stdout]
    exact (setup_ok_quiet fl env p h).1
  · intro g script
    rcases pollLoop_exit g.shard g.iterator.ShardIterator script {} with h | h
    · simp [goroutine, h]
    · simp [goroutine, h]
  · intro sched
    rcases (reach_inv fl env sched).code with h | h
    · simp [h]
    · simp [h]
  · intro sched i g err he hg hpc
    simp [step, he, stepPoller, hg, hpc, fail_exit, fail_stderr]

/-- Witness of C8: a stream whose discovery fails; the run exits with status 1 and the
message of line 40. -/
theorem C8_exit_code_one_witness :
    ∃ q, setup Flags.default
          ⟨.ok (), fun _ => .ok ⟨0⟩, fun _ => .error ⟨lit "denied"⟩, fun _ _ => .ok ⟨none⟩,
            fun _ => []⟩ = .error q
      ∧ q.exit = some 1 ∧ q.stderr ≠ [] :=
  (C8_exit_code_one Flags.default
    ⟨.ok (), fun _ => .ok ⟨0⟩, fun _ => .error ⟨lit "denied"⟩, fun _ _ => .ok ⟨none⟩,
      fun _ => []⟩).2.2.1 ⟨lit "denied"⟩ rfl

/-- C9 as stated fails: one payload holding a newline byte yields two output lines. -/
theorem C9_counterexample_payload_with_newline :
    (consume [[97, 10, 98]] {}).stdout = [97, 10, 98, 10]
    ∧ lineCount (consume [[97, 10, 98]] {}).stdout = 2
    ∧ ([[97, 10, 98]] : List GoString).length = 1 := by
  decide

/-- C9 (amended): for every sequence of payloads the loop of line 64 receives, what is
written to standard output is the concatenation, in the order received, of each
payload's bytes, unchanged, followed by one newline byte, with nothing else added;
the conversion `string(r.Data)` keeps the bytes; the number of newline bytes written
is the number of payloads plus the number of newline bytes inside the payloads, so
`n` payloads yield `n` output lines when no payload holds a newline byte. -/
theorem C9_output_lines (received : List GoString) (p : Proc) :
    (consume received p).stdout = p.stdout ++ received.flatMap (fun r => r ++ [newline])
    ∧ (∀ fl env q, setup fl env = .ok q →
        (main fl env received).stdout = received.flatMap (fun r => r ++ [newline]))
    ∧ (∀ r : Record, string r.Data = r.Data)
    ∧ lineCount (received.flatMap (fun r => r ++ [newline]))
        = received.length + (received.map lineCount).sum
    ∧ ((∀ r ∈ received, newline ∉ r) →
        lineCount (received.flatMap (fun r => r ++ [newline])) = received.length) := by
  refine ⟨by simp [consume_stdout], ?_, fun _ => rfl, lineCount_lines received, ?_⟩
  · intro fl env q h
    unfold main
    simp only [h, consume_stdout]
    simp [(setup_ok_quiet fl env q h).2.1]
  · intro hno
    rw [lineCount_lines]
    have hz : (received.map lineCount).sum = 0 := by
      apply List.sum_eq_zero
      intro x hx
      obtain ⟨r, hr, rfl⟩ := List.mem_map.mp hx
      exact List.count_eq_zero.mpr (hno r hr)
    omega

/-- Witness of C9 (amended): two payloads without newline bytes give two lines. -/
theorem C9_output_lines_witness :
    (consume [[97], [98, 99]] {}).stdout = [97, 10, 98, 99, 10]
    ∧ lineCount (([[97], [98, 99]] : List GoString).flatMap (fun r => r ++ [newline])) = 2 :=
  ⟨(C9_output_lines [[97], [98, 99]] {}).1,
    (C9_output_lines [[97], [98, 99]] {}).2.2.2.2 (by decide)⟩

/-- C3 as stated fails: shards `A` and `B`, the service returns `r1` to the poller of
`B`, then the fetch of `A` fails; the process exits with status 1 while `r1` has not
been sent, and nothing has been printed. -/
theorem C3_counterexample_record_lost_at_exit :
    (run Flags.default envAB [0, 0, 0, 2, 1, 1] (boot Flags.default envAB)).proc.exit = some 1
    ∧ (run Flags.default envAB [0, 0, 0, 2, 1, 1] (boot Flags.default envAB)).returned
        = [lit "r1"]
    ∧ (run Flags.default envAB [0, 0, 0, 2, 1, 1] (boot Flags.default envAB)).emitted = []
    ∧ (run Flags.default envAB [0, 0, 0, 2, 1, 1] (boot Flags.default envAB)).proc.stdout = []
    ∧ inflight (run Flags.default envAB [0, 0, 0, 2, 1, 1] (boot Flags.default envAB))
        = [lit "r1"] := by
  decide

/-- C3 (amended): for every interleaving of the main goroutine and the pollers (of two
shards, or of any number), at every moment the payloads printed together with the
payloads in flight (fetched and not yet sent, or received and not yet printed) are, as
a multiset, exactly the payloads of the records the service has returned: nothing is
printed twice and nothing is printed that was not returned.  Hence the printed
payloads equal the returned ones whenever nothing is in flight, in particular whenever
the process has not exited and no goroutine can move; and standard output is the
printed payloads, one per line.  Payloads in flight when `os.Exit` is called are not
printed. -/
theorem C3_printed_plus_inflight_is_returned (fl : Flags) (env : Env) (sched : List Nat) :
    ((run fl env sched (boot fl env)).emitted ++ inflight (run fl env sched (boot fl env))
        : Multiset GoString) = (run fl env sched (boot fl env)).returned
    ∧ ((run fl env sched (boot fl env)).emitted : Multiset GoString)
        ≤ (run fl env sched (boot fl env)).returned
    ∧ (inflight (run fl env sched (boot fl env)) = [] →
        ((run fl env sched (boot fl env)).emitted : Multiset GoString)
          = (run fl env sched (boot fl env)).returned)
    ∧ ((run fl env sched (boot fl env)).proc.exit = none →
        (∀ t, step fl env t (run fl env sched (boot fl env)) = run fl env sched (boot fl env)) →
        ((run fl env sched (boot fl env)).emitted : Multiset GoString)
          = (run fl env sched (boot fl env)).returned)
    ∧ (run fl env sched (boot fl env)).proc.stdout
        = (run fl env sched (boot fl env)).emitted.flatMap (fun r => r ++ [newline]) := by
  have hinv := reach_inv fl env sched
  have hperm := hinv.perm
  have hms := Multiset.coe_eq_coe.mpr hperm
  have hempty : inflight (run fl env sched (boot fl env)) = [] →
      ((run fl env sched (boot fl env)).emitted : Multiset GoString)
        = (run fl env sched (boot fl env)).returned := by
    intro h0
    rw [h0, List.append_nil] at hms
    exact hms
  refine ⟨hms, ?_, hempty, ?_, hinv.out⟩
  · rw [← hms, ← Multiset.coe_add]
    exact Multiset.le_add_right _ _
  · intro he hq
    exact hempty (quiescent_inflight fl env _ hinv he hq)

/-- Witness of C3 (amended): shards `A` and `B` with successful fetches, in an
interleaving that delivers everything: the three payloads are printed, `b1` first. -/
theorem C3_printed_plus_inflight_is_returned_witness :
    (run Flags.default envQuiet [0, 0, 0, 2, 1, 2, 0, 1, 0, 2, 2, 0] (boot Flags.default envQuiet)).emitted
      = [lit "b1", lit "a1", lit "b2"]
    ∧ ((run Flags.default envQuiet [0, 0, 0, 2, 1, 2, 0, 1, 0, 2, 2, 0]
          (boot Flags.default envQuiet)).emitted : Multiset GoString)
        = (run Flags.default envQuiet [0, 0, 0, 2, 1, 2, 0, 1, 0, 2, 2, 0]
            (boot Flags.default envQuiet)).returned :=
  ⟨by decide,
    (C3_printed_plus_inflight_is_returned Flags.default envQuiet
      [0, 0, 0, 2, 1, 2, 0, 1, 0, 2, 2, 0]).2.2.1 (by decide)⟩

/-- C7 as stated fails: shards `A` and `B`; the iterator of `A` is resolved and its
goroutine started, that goroutine calls `GetRecords`, and then the resolution for `B`
fails: the process exits with status 1 after a goroutine was started for another
shard and a `GetRecords` call was made. -/
theorem C7_counterexample_poller_runs_before_failure :
    (run Flags.default envResolveB [0, 1, 0] (boot Flags.default envResolveB)).proc.exit = some 1
    ∧ (run Flags.default envResolveB [0, 1, 0] (boot Flags.default envResolveB)).proc.stderr
        = iteratorFailMsg ⟨lit "B"⟩ ⟨lit "no"⟩ ++ [newline]
    ∧ (run Flags.default envResolveB [0, 1, 0] (boot Flags.default envResolveB)).proc.started
        = [{ shard := ⟨lit "A"⟩, iterator := ⟨some (lit "c0")⟩ }]
    ∧ Call.getRecords ⟨some (lit "c0")⟩
        ∈ (run Flags.default envResolveB [0, 1, 0] (boot Flags.default envResolveB)).proc.calls
    ∧ fetchCount
        (run Flags.default envResolveB [0, 1, 0] (boot Flags.default envResolveB)).proc.calls = 1 := by
  decide

/-- C10 as stated fails: with nothing written and not yet consumed, the poller of `B`
holds the payload `r1` to send while the main goroutine is not receiving; its step
leaves the state as it is: the send has not completed. -/
theorem C10_counterexample_send_blocks :
    step Flags.default envAB 2 (run Flags.default envAB [0, 0, 2] (boot Flags.default envAB))
      = run Flags.default envAB [0, 0, 2] (boot Flags.default envAB)
    ∧ (run Flags.default envAB [0, 0, 2] (boot Flags.default envAB)).pollers[1]?.map Poller.pending
        = some [lit "r1"]
    ∧ (run Flags.default envAB [0, 0, 2] (boot Flags.default envAB)).proc.sink = []
    ∧ (run Flags.default envAB [0, 0, 2] (boot Flags.default envAB)).records = makeChan 0
    ∧ (run Flags.default envAB [0, 0, 2] (boot Flags.default envAB)).proc.exit = none := by
  decide

/-- C10 (amended): the channel made at line 44 is unbuffered: in every reachable state
its capacity is 0 and it holds no payload, so no send completes without a receiver.
A poller that has a payload to send does not move while the main goroutine is not
receiving at line 64, and when the main goroutine is receiving the send hands the
payload over to it directly. -/
theorem C10_channel_is_unbuffered (fl : Flags) (env : Env) (sched : List Nat) :
    (run fl env sched (boot fl env)).records.cap = 0
    ∧ (run fl env sched (boot fl env)).records.buf = []
    ∧ (∀ v, (run fl env sched (boot fl env)).records.sendBuffered v = none)
    ∧ (∀ i g v pending result,
        (run fl env sched (boot fl env)).pollers[i]? = some g →
        g.pc = .sending (v :: pending) result →
        ((run fl env sched (boot fl env)).main ≠ .recv →
          step fl env (i + 1) (run fl env sched (boot fl env))
            = run fl env sched (boot fl env))
        ∧ ((run fl env sched (boot fl env)).main = .recv →
            (run fl env sched (boot fl env)).proc.exit = none →
            (step fl env (i + 1) (run fl env sched (boot fl env))).main = .print v
            ∧ (step fl env (i + 1) (run fl env sched (boot fl env))).proc.sink
                = (run fl env sched (boot fl env)).proc.sink ++ [v]
            ∧ (step fl env (i + 1) (run fl env sched (boot fl env))).records
                = (run fl env sched (boot fl env)).records)) := by
  have hinv := reach_inv fl env sched
  generalize run fl env sched (boot fl env) = σ at hinv ⊢
  have hsb : ∀ v, σ.records.sendBuffered v = none := by
    intro v
    simp [Chan.sendBuffered, hinv.cap]
  refine ⟨hinv.cap, hinv.buf, hsb, ?_⟩
  intro i g v pending result hg hpc
  constructor
  · intro hm
    unfold step
    split
    · rfl
    · simp only [stepPoller, hg, hpc, hsb]
      split
      · rename_i h1 _
        exact absurd h1 hm
      · rfl
  · intro hm he
    simp [step, he, stepPoller, hg, hpc, hsb, hm, hinv.buf]

/-- Witness of C10 (amended): in the state where the poller of `B` holds `r1` and the
main goroutine is still in its loop over the shards, the poller's step changes
nothing. -/
theorem C10_channel_is_unbuffered_witness :
    step Flags.default envAB (1 + 1) (run Flags.default envAB [0, 0, 2] (boot Flags.default envAB))
      = run Flags.default envAB [0, 0, 2] (boot Flags.default envAB) :=
  ((C10_channel_is_unbuffered Flags.default envAB [0, 0, 2]).2.2.2 1
    { s := ⟨lit "B"⟩, iter := some [1], pc := .sending [lit "r1"] (.ok none), script := [],
      first := some [1], got := [.ok ⟨[⟨lit "r1"⟩], none⟩], asked := [some [1]], sent := [] }
    (lit "r1") [] (.ok none) (by decide) rfl).1 (by decide)

end KinesisTail
